import Mathlib

/-!
Verification of the Tool-Call Protocol Adapter and the Model / Embedding
Capability Registry of the `suna` backend
(`backend/core/agentpress/tool_adapter.py`,
`backend/core/ai_models/registry.py`,
`backend/core/ai_models/embedding_models.py`).

The Python code manipulates JSON-like values (the results of `json.loads`,
Python dicts/lists/strings/ints/bools/None).  We embed those values as the
inductive type `JVal`.  Modelling decisions, stated once here:

* JSON numbers are modelled as integers (`Int`).  Python's `json` also
  accepts floats (`1.5`, `1e5`, `Infinity`, `NaN`); IEEE floats are outside
  the model, so the embedded `jsonLoads` fails on such texts where Python
  would produce a float.  No claim below involves float values.
* `jsonDumps` serialises with Python's default separators (`", "` and
  `": "`) and escapes `"`, `\` and control characters (the latter as
  `\u00XX`).  Python additionally escapes non-ASCII characters when
  `ensure_ascii=True`; that changes only the bytes of the serialised
  string, never the decoded value, and the claims are explicitly about
  semantic (decoded) equality.
* Python dicts are embedded as association lists in insertion order with
  pairwise-distinct keys (`pyWF`); `dictInsert` models `d[k] = v`
  (replace in place, else append), matching dict update semantics.
* Python's process-seeded `hash` of a value is modelled by the
  deterministic `pyHash` below; every property proved about it uses only
  that it is a function of its argument, which also holds of Python's
  `hash` within one process.
-/

/-- A decoded Python/JSON value: `None`, `bool`, `int`, `str`, `list`,
`dict` (association list in insertion order). -/
inductive JVal where
  | null : JVal
  | bool : Bool → JVal
  | num : Int → JVal
  | str : String → JVal
  | arr : List JVal → JVal
  | obj : List (String × JVal) → JVal

namespace JVal

/-- Python truth-value testing (`if raw_input:` and friends): `None`,
`False`, `0`, `""`, `[]`, `{}` are falsy, everything else truthy. -/
def falsy : JVal → Bool
  | .null => true
  | .bool b => !b
  | .num n => n == 0
  | .str s => s == ""
  | .arr xs => xs.isEmpty
  | .obj kvs => kvs.isEmpty

end JVal

/-- Python dict lookup on an association list with distinct keys: the
value at the first matching key, `none` for a missing key. -/
def lookup {β : Type} (kvs : List (String × β)) (k : String) : Option β :=
  (kvs.find? (fun p => p.1 == k)).map (·.2)

/-- Python dict update `d[k] = v`: replace in place if the key exists,
else append (keys keep their first-insertion position). -/
def dictInsert {β : Type} (kvs : List (String × β)) (k : String) (v : β) :
    List (String × β) :=
  match kvs with
  | [] => [(k, v)]
  | (k0, v0) :: rest =>
      if k0 = k then (k0, v) :: rest else (k0, v0) :: dictInsert rest k v

/-- Boolean key-distinctness for an embedded dict. -/
def keysNodup : List (String × JVal) → Bool
  | [] => true
  | (k, _) :: rest => rest.all (fun p => !(p.1 == k)) && keysNodup rest

mutual

/-- Dict well-formedness: every embedded association list has pairwise
distinct keys, as a Python dict structurally guarantees. -/
def pyWF : JVal → Bool
  | .null => true
  | .bool _ => true
  | .num _ => true
  | .str _ => true
  | .arr xs => pyWFList xs
  | .obj kvs => keysNodup kvs && pyWFMembers kvs

def pyWFList : List JVal → Bool
  | [] => true
  | v :: rest => pyWF v && pyWFList rest

def pyWFMembers : List (String × JVal) → Bool
  | [] => true
  | (_, v) :: rest => pyWF v && pyWFMembers rest

end

/-- Decimal digit character for `n < 10` (used by the embedded `str(int)`
and `json.dumps`). -/
def digitChar (n : Nat) : Char := Char.ofNat (48 + n)

/-- Decimal rendering of a natural number, most significant digit first:
the digits of Python's `str(n)`. -/
def natToChars (n : Nat) : List Char :=
  if _h : n < 10 then [digitChar n]
  else natToChars (n / 10) ++ [digitChar (n % 10)]
termination_by n
decreasing_by
  exact Nat.div_lt_self (by omega) (by omega)

/-- Decimal rendering of an integer: Python's `str(i)` for `int` values,
which is also what `json.dumps` emits for an integer. -/
def intToChars (i : Int) : List Char :=
  if i < 0 then '-' :: natToChars i.natAbs else natToChars i.natAbs

/-- Lower-case hexadecimal digit for `n < 16`. -/
def hexChar (n : Nat) : Char :=
  if n < 10 then Char.ofNat (48 + n) else Char.ofNat (87 + n)

/-- Serialisation of one character inside a JSON string literal:
`"` and `\` get a backslash escape, control characters become `\u00XX`
(they are all below `0x20`), everything else stands for itself.  This is
`json.dumps` up to the representation-only `ensure_ascii` escapes. -/
def escChar (c : Char) : List Char :=
  if c = '"' then ['\\', '"']
  else if c = '\\' then ['\\', '\\']
  else if c.toNat < 32 then
    ['\\', 'u', '0', '0', hexChar (c.toNat / 16), hexChar (c.toNat % 16)]
  else [c]

/-- Serialisation of the body of a JSON string literal. -/
def escStr : List Char → List Char
  | [] => []
  | c :: rest => escChar c ++ escStr rest

/-- A JSON string literal (quotes included) for a Lean/Python string. -/
def dumpStr (s : String) : List Char := '"' :: escStr s.data ++ ['"']

mutual

/-- The embedded `json.dumps` (character-list form): default separators
`", "` and `": "`, dict members in insertion order. -/
def dumpVal : JVal → List Char
  | .null => ['n', 'u', 'l', 'l']
  | .bool true => 't' :: ['r', 'u', 'e']
  | .bool false => ['f', 'a', 'l', 's', 'e']
  | .num i => intToChars i
  | .str s => dumpStr s
  | .arr xs => '[' :: dumpElems xs ++ [']']
  | .obj kvs => '{' :: dumpMembers kvs ++ ['}']

def dumpElems : List JVal → List Char
  | [] => []
  | [v] => dumpVal v
  | v :: rest => dumpVal v ++ ',' :: ' ' :: dumpElems rest

def dumpMembers : List (String × JVal) → List Char
  | [] => []
  | [(k, v)] => dumpStr k ++ ':' :: ' ' :: dumpVal v
  | (k, v) :: rest =>
      dumpStr k ++ ':' :: ' ' :: dumpVal v ++ ',' :: ' ' :: dumpMembers rest

end

/-- The embedded `json.dumps` as a string-valued function. -/
def jsonDumps (v : JVal) : String := String.mk (dumpVal v)

/-- JSON whitespace as skipped by Python's `json` scanner. -/
def isJsonWs (c : Char) : Bool := c = ' ' || c = '\t' || c = '\n' || c = '\r'

/-- Drop leading JSON whitespace. -/
def skipWs : List Char → List Char
  | [] => []
  | c :: rest => if isJsonWs c then skipWs rest else c :: rest

/-- Match a literal suffix of a keyword (`ull`, `rue`, `alse`), returning
the remaining input. -/
def stripLit : List Char → List Char → Option (List Char)
  | [], s => some s
  | _, [] => none
  | l :: ls, c :: cs => if c = l then stripLit ls cs else none

/-- Consume a maximal run of decimal digits, accumulating their value. -/
def parseDigits : List Char → Nat → (Nat × List Char)
  | [], acc => (acc, [])
  | c :: rest, acc =>
      if c.isDigit then parseDigits rest (acc * 10 + (c.toNat - 48))
      else (acc, c :: rest)

/-- Parse the digits of a JSON integer (sign already consumed).  JSON
forbids leading zeros, so `0` followed by another digit is rejected. -/
def parseNumBody (s : List Char) : Option (Nat × List Char) :=
  match s with
  | [] => none
  | c :: rest =>
      if c.isDigit then
        if c = '0' && (match rest with | d :: _ => d.isDigit | [] => false) then
          none
        else some (parseDigits (c :: rest) 0)
      else none

/-- Value of a hexadecimal digit character. -/
def hexVal (c : Char) : Option Nat :=
  if '0' ≤ c ∧ c ≤ '9' then some (c.toNat - 48)
  else if 'a' ≤ c ∧ c ≤ 'f' then some (c.toNat - 87)
  else if 'A' ≤ c ∧ c ≤ 'F' then some (c.toNat - 55)
  else none

/-- The character a single-letter JSON escape stands for. -/
def unescape (c : Char) : Option Char :=
  if c = '"' then some '"'
  else if c = '\\' then some '\\'
  else if c = '/' then some '/'
  else if c = 'b' then some (Char.ofNat 8)
  else if c = 'f' then some (Char.ofNat 12)
  else if c = 'n' then some '\n'
  else if c = 'r' then some '\r'
  else if c = 't' then some '\t'
  else none

/-- Parse the body of a JSON string literal after the opening quote, up to
and including the closing quote.  Python's strict decoder rejects raw
control characters and unknown escapes; `\uXXXX` needs four hex digits. -/
def parseStringBody : List Char → Option (List Char × List Char)
  | [] => none
  | c :: rest =>
      if c = '"' then some ([], rest)
      else if c = '\\' then
        match rest with
        | 'u' :: h1 :: h2 :: h3 :: h4 :: rest2 =>
            (match hexVal h1, hexVal h2, hexVal h3, hexVal h4 with
             | some a, some b, some c3, some d =>
                 (parseStringBody rest2).map
                   (fun p => (Char.ofNat (a * 4096 + b * 256 + c3 * 16 + d) :: p.1, p.2))
             | _, _, _, _ => none)
        | e :: rest2 =>
            (match unescape e with
             | some d => (parseStringBody rest2).map (fun p => (d :: p.1, p.2))
             | none => none)
        | [] => none
      else if c.toNat < 32 then none
      else (parseStringBody rest).map (fun p => (c :: p.1, p.2))

mutual

/-- The embedded JSON value scanner (fuelled; fuel decreases on every
mutual call, and `jsonLoads` supplies more fuel than any input needs).
Mirrors Python's `json` decoder on the integer fragment. -/
def parseVal : Nat → List Char → Option (JVal × List Char)
  | 0, _ => none
  | fuel + 1, s =>
      match skipWs s with
      | [] => none
      | c :: rest =>
          if c = 'n' then (stripLit ['u', 'l', 'l'] rest).map (fun r => (JVal.null, r))
          else if c = 't' then (stripLit ['r', 'u', 'e'] rest).map (fun r => (JVal.bool true, r))
          else if c = 'f' then (stripLit ['a', 'l', 's', 'e'] rest).map (fun r => (JVal.bool false, r))
          else if c = '"' then
            (parseStringBody rest).map (fun p => (JVal.str (String.mk p.1), p.2))
          else if c = '[' then
            match skipWs rest with
            | [] => none
            | c2 :: r2 =>
                if c2 = ']' then some (JVal.arr [], r2)
                else (parseElems fuel (c2 :: r2)).map (fun p => (JVal.arr p.1, p.2))
          else if c = '{' then
            match skipWs rest with
            | [] => none
            | c2 :: r2 =>
                if c2 = '}' then some (JVal.obj [], r2)
                else
                  (parseMembers fuel (c2 :: r2)).map
                    (fun p =>
                      (JVal.obj (p.1.foldl (fun acc kv => dictInsert acc kv.1 kv.2) []), p.2))
          else if c = '-' then
            (parseNumBody rest).map (fun p => (JVal.num (-(p.1 : Int)), p.2))
          else (parseNumBody (c :: rest)).map (fun p => (JVal.num (p.1 : Int), p.2))

/-- Comma-separated values up to the closing bracket. -/
def parseElems : Nat → List Char → Option (List JVal × List Char)
  | 0, _ => none
  | fuel + 1, s =>
      match parseVal fuel s with
      | none => none
      | some (v, r) =>
          match skipWs r with
          | ',' :: r2 => (parseElems fuel r2).map (fun p => (v :: p.1, p.2))
          | ']' :: r2 => some ([v], r2)
          | _ => none

/-- Comma-separated `"key": value` members up to the closing brace. -/
def parseMembers : Nat → List Char → Option (List (String × JVal) × List Char)
  | 0, _ => none
  | fuel + 1, s =>
      match skipWs s with
      | '"' :: r =>
          (match parseStringBody r with
           | none => none
           | some (kcs, r2) =>
               match skipWs r2 with
               | ':' :: r3 =>
                   (match parseVal fuel r3 with
                    | none => none
                    | some (v, r4) =>
                        match skipWs r4 with
                        | ',' :: r5 =>
                            (parseMembers fuel r5).map
                              (fun p => ((String.mk kcs, v) :: p.1, p.2))
                        | '}' :: r5 => some ([(String.mk kcs, v)], r5)
                        | _ => none)
               | _ => none)
      | _ => none

end

/-- The embedded `json.loads`: parse one value, then require only
whitespace to remain (Python raises `Extra data` otherwise); every
failure is `none` (Python: a raised `JSONDecodeError`). -/
def jsonLoads (s : String) : Option JVal :=
  match parseVal (s.data.length + 1) s.data with
  | some (v, rest) => if skipWs rest = [] then some v else none
  | none => none

/-! ## The Tool-Call Protocol Adapter (`core/agentpress/tool_adapter.py`)

Python `None` is itself a value, so optional fields hold `JVal` with
`JVal.null` for `None` (e.g. `dict.get` returns `None` both for a missing
key and for a stored `None`). -/

/-- Python `d.get(k)`: the stored value, or `None` for a missing key. -/
def pyGet (kvs : List (String × JVal)) (k : String) : JVal :=
  (lookup kvs k).getD .null

/-- Python `v == "lit"` for a string literal: true exactly when `v` is an
equal `str` (no other decoded value compares equal to a string). -/
def pyEqStr (v : JVal) (t : String) : Bool :=
  match v with
  | .str s => s == t
  | _ => false

/-- Python's `\s` on the ASCII range: space, tab, newline, carriage
return, vertical tab, form feed. -/
def isPyWs (c : Char) : Bool :=
  c = ' ' || c = '\t' || c = '\n' || c = '\r' || c = Char.ofNat 11 || c = Char.ofNat 12

/-- Python `str.strip()`: drop leading and trailing whitespace. -/
def pyStrip (cs : List Char) : List Char :=
  ((cs.dropWhile isPyWs).reverse.dropWhile isPyWs).reverse

/-- Which wire form produced a normalized call. -/
inductive SourceFormat where
  | native : SourceFormat
  | xml : SourceFormat
deriving DecidableEq

/-- The `NormalizedToolCall` dataclass.  `tool_name` is annotated `str` in
the source but, being Python, can end up holding `None` (see C1). -/
structure NormalizedToolCall where
  tool_name : JVal
  parameters : JVal
  call_id : JVal := .null
  source_format : SourceFormat := .native
  raw_call : JVal := .null

/-- The `AdapterConfig` dataclass with its defaults. -/
structure AdapterConfig where
  enable_native : Bool := true
  enable_xml : Bool := true
  prefer_native : Bool := true
  auto_detect : Bool := true
  strict_mode : Bool := false

/-- ToolCallAdapter._parse_single_native_call.  `none` models both the
fall-through `return None` and a caught exception (`call` not a dict,
`function` not a dict, `json.loads` failure). -/
def parseSingleNativeCall (call : JVal) : Option NormalizedToolCall :=
  match call with
  | .obj kvs =>
      if pyEqStr (pyGet kvs "type") "function" && (lookup kvs "function").isSome then
        match pyGet kvs "function" with
        | .obj fkvs =>
            let tool_name := pyGet fkvs "name"
            let arguments := (lookup fkvs "arguments").getD (.str "{}")
            match arguments with
            | .str s =>
                if s = "" then
                  some ⟨tool_name, .obj [], pyGet kvs "id", .native, call⟩
                else
                  (jsonLoads s).map
                    (fun p => ⟨tool_name, p, pyGet kvs "id", .native, call⟩)
            | v => some ⟨tool_name, v, pyGet kvs "id", .native, call⟩
        | _ => none
      else if (lookup kvs "name").isSome then
        let arguments := (lookup kvs "arguments").getD (.obj [])
        match arguments with
        | .str s =>
            if s = "" then
              some ⟨pyGet kvs "name", .obj [], pyGet kvs "id", .native, call⟩
            else
              (jsonLoads s).map
                (fun p => ⟨pyGet kvs "name", p, pyGet kvs "id", .native, call⟩)
        | v => some ⟨pyGet kvs "name", v, pyGet kvs "id", .native, call⟩
      else none
  | _ => none

/-! ### The compiled XML patterns

`_xml_pattern` is
`<function_calls>\s*<invoke\s+name=["']([^"']+)["']>(.*?)</invoke>\s*</function_calls>`
with `re.DOTALL`, `_param_pattern` is
`<parameter\s+name=["']([^"']+)["']>(.*?)</parameter>`, both used through
`finditer`.  In this pattern every greedy element (`\s*`, `\s+`,
`[^"']+`) is followed by a character it cannot match, so committed
maximal munch is exact, and the lazy `(.*?)` stops at the earliest
position where the closing sequence matches. -/

/-- Earliest-match scan for the closing `</invoke>\s*</function_calls>`
of `_xml_pattern`: the lazy body and the input after the match. -/
def invokeBody : List Char → Option (List Char × List Char)
  | [] =>
      match (stripLit "</invoke>".data []).bind
          (fun r => stripLit "</function_calls>".data (r.dropWhile isPyWs)) with
      | some rest => some ([], rest)
      | none => none
  | c :: r =>
      match (stripLit "</invoke>".data (c :: r)).bind
          (fun r2 => stripLit "</function_calls>".data (r2.dropWhile isPyWs)) with
      | some rest => some ([], rest)
      | none => (invokeBody r).map (fun p => (c :: p.1, p.2))

/-- Try `_xml_pattern` anchored at the head of `s`: the invoke `name`
attribute, the lazy body (group 2) and the input after the match. -/
def matchInvokeAt (s : List Char) : Option (String × List Char × List Char) := do
  let s1 ← stripLit "<function_calls>".data s
  let s3 ← stripLit "<invoke".data (s1.dropWhile isPyWs)
  let s4 ← match s3 with
           | c :: r => if isPyWs c then some (r.dropWhile isPyWs) else none
           | [] => none
  let s5 ← stripLit "name=".data s4
  let s6 ← match s5 with
           | c :: r => if c = '"' ∨ c = '\'' then some r else none
           | [] => none
  let nm := s6.takeWhile (fun c => !(c = '"' || c = '\''))
  if nm.isEmpty then none
  else
    let s7 := s6.dropWhile (fun c => !(c = '"' || c = '\''))
    let s8 ← match s7 with
             | c :: r => if c = '"' ∨ c = '\'' then some r else none
             | [] => none
    let s9 ← stripLit ">".data s8
    let (body, rest) ← invokeBody s9
    return (String.mk nm, body, rest)

/-- The `finditer` loop for `_xml_pattern`: try a match at every
position, resume after each non-overlapping match; yields
`(name, body, whole match)` per hit. -/
def xmlFindCalls : Nat → List Char → List (String × List Char × List Char)
  | 0, _ => []
  | _ + 1, [] => []
  | fuel + 1, c :: tail =>
      match matchInvokeAt (c :: tail) with
      | some (nm, body, rest) =>
          (nm, body, (c :: tail).take ((c :: tail).length - rest.length)) ::
            xmlFindCalls fuel rest
      | none => xmlFindCalls fuel tail

/-- Earliest-match scan for the closing `</parameter>` of
`_param_pattern`. -/
def paramBody : List Char → Option (List Char × List Char)
  | [] =>
      match stripLit "</parameter>".data [] with
      | some rest => some ([], rest)
      | none => none
  | c :: r =>
      match stripLit "</parameter>".data (c :: r) with
      | some rest => some ([], rest)
      | none => (paramBody r).map (fun p => (c :: p.1, p.2))

/-- Try `_param_pattern` anchored at the head of `s`. -/
def matchParamAt (s : List Char) : Option (String × List Char × List Char) := do
  let s1 ← stripLit "<parameter".data s
  let s2 ← match s1 with
           | c :: r => if isPyWs c then some (r.dropWhile isPyWs) else none
           | [] => none
  let s3 ← stripLit "name=".data s2
  let s4 ← match s3 with
           | c :: r => if c = '"' ∨ c = '\'' then some r else none
           | [] => none
  let nm := s4.takeWhile (fun c => !(c = '"' || c = '\''))
  if nm.isEmpty then none
  else
    let s5 := s4.dropWhile (fun c => !(c = '"' || c = '\''))
    let s6 ← match s5 with
             | c :: r => if c = '"' ∨ c = '\'' then some r else none
             | [] => none
    let s7 ← stripLit ">".data s6
    let (body, rest) ← paramBody s7
    return (String.mk nm, body, rest)

/-- The `finditer` loop for `_param_pattern`: `(name, textual value)`
per hit. -/
def xmlFindParams : Nat → List Char → List (String × List Char)
  | 0, _ => []
  | _ + 1, [] => []
  | fuel + 1, c :: tail =>
      match matchParamAt (c :: tail) with
      | some (nm, body, rest) => (nm, body) :: xmlFindParams fuel rest
      | none => xmlFindParams fuel tail

/-- One XML parameter value: trim, then speculatively `json.loads`; on
failure keep the trimmed text as a string. -/
def xmlParamValue (raw : List Char) : JVal :=
  let t := pyStrip raw
  match jsonLoads (String.mk t) with
  | some v => v
  | none => .str (String.mk t)

/-- ToolCallAdapter._parse_xml_tool_calls. -/
def parseXmlToolCalls (s : String) : List NormalizedToolCall :=
  (xmlFindCalls (s.data.length + 1) s.data).map
    (fun m =>
      let params := (xmlFindParams (m.2.1.length + 1) m.2.1).foldl
        (fun acc p => dictInsert acc p.1 (xmlParamValue p.2)) []
      ⟨.str m.1, .obj params, .null, .xml, .str (String.mk m.2.2)⟩)

/-- ToolCallAdapter.normalize_tool_calls: falsy input gives `[]`; a
string is parsed as XML; a list as a batch of native records; a dict as
one native record; any other shape is logged and dropped. -/
def normalize_tool_calls (raw : JVal) : List NormalizedToolCall :=
  if raw.falsy then []
  else
    match raw with
    | .str s => parseXmlToolCalls s
    | .arr xs => xs.filterMap parseSingleNativeCall
    | .obj kvs => (parseSingleNativeCall (.obj kvs)).toList
    | _ => []

/-- Deterministic stand-in for Python's per-process `hash`: every
property proved below uses only that it is a function of its argument.
Containers are unhashable in Python (a raised `TypeError`); the adapter
only hashes `tool_name`, and no claim exercises a container there. -/
def pyHash : JVal → Int
  | .null => 0
  | .bool b => if b then 1 else 0
  | .num n => n
  | .str s => s.data.foldl (fun a c => a * 31 + (c.toNat : Int)) 7
  | .arr _ => 0
  | .obj _ => 0

/-- The synthesized id `f"call_{hash(call.tool_name)}"`. -/
def synthCallId (tool_name : JVal) : JVal :=
  .str ("call_" ++ toString (pyHash tool_name))

/-- One record of ToolCallAdapter.to_native_format.  `call.call_id or
f"call_{hash(call.tool_name)}"` falls back whenever `call_id` is falsy. -/
def toNativeOne (call : NormalizedToolCall) : JVal :=
  .obj
    [("id", if call.call_id.falsy then synthCallId call.tool_name else call.call_id),
     ("type", .str "function"),
     ("function",
       .obj [("name", call.tool_name), ("arguments", .str (jsonDumps call.parameters))])]

/-- ToolCallAdapter.to_native_format. -/
def to_native_format (calls : List NormalizedToolCall) : List JVal :=
  calls.map toNativeOne

/-- Python `str()` on the decoded scalars the adapter renders into XML.
`str(int)` is the plain decimal rendering, written here with the same
`intToChars` digits `json.dumps` uses for integers.  Containers reach
this only as a non-string `tool_name` (Python would print their `repr`;
the stand-in prints JSON), which no claim exercises: container parameter
values take the `json.dumps` branch instead. -/
def pyStr : JVal → String
  | .null => "None"
  | .bool true => "True"
  | .bool false => "False"
  | .num n => String.mk (intToChars n)
  | .str s => s
  | v => jsonDumps v

/-- One `<parameter …>` line of to_xml_format: dict/list values are
serialised as JSON, everything else via `str()`. -/
def xmlParamLine (k : String) (v : JVal) : String :=
  "<parameter name=\"" ++ k ++ "\">" ++
    (match v with
     | .obj _ => jsonDumps v
     | .arr _ => jsonDumps v
     | _ => pyStr v) ++ "</parameter>"

/-- ToolCallAdapter.to_xml_format: empty input yields `""`; otherwise one
`<function_calls>` wrapper with one `<invoke>` per call, `'\n'`-joined.
`none` models the `AttributeError` Python raises when `parameters` is not
a dict (`.items()`). -/
def to_xml_format (calls : List NormalizedToolCall) : Option String :=
  if calls.isEmpty then some ""
  else
    let blocks : Option (List (List String)) :=
      calls.mapM (fun (call : NormalizedToolCall) =>
        match call.parameters with
        | .obj kvs =>
            some (("<invoke name=\"" ++ pyStr call.tool_name ++ "\">") ::
              kvs.map (fun (p : String × JVal) => xmlParamLine p.1 p.2) ++ ["</invoke>"])
        | _ => none)
    blocks.map
      (fun (parts : List (List String)) =>
        String.intercalate "\n" ("<function_calls>" :: parts.flatten ++ ["</function_calls>"]))

/-- A caller's `prefer_format` argument. -/
inductive NativeOrXml where
  | native : NativeOrXml
  | xml : NativeOrXml
deriving DecidableEq

/-- The two shapes adapt_for_model can return. -/
inductive AdaptOut where
  | native : List JVal → AdaptOut
  | xml : String → AdaptOut

/-- ToolCallAdapter.adapt_for_model: explicit preference first (`native`
honored only when supported or strict mode is off), then auto-detection,
then the universal XML fallback. -/
def adapt_for_model (cfg : AdapterConfig) (calls : List NormalizedToolCall)
    (model_supports_native : Bool) (prefer_format : Option NativeOrXml) :
    Option AdaptOut :=
  if prefer_format = some .native ∧ (model_supports_native ∨ ¬cfg.strict_mode) then
    some (.native (to_native_format calls))
  else if prefer_format = some .xml then
    (to_xml_format calls).map .xml
  else if cfg.auto_detect then
    if model_supports_native ∧ cfg.prefer_native then
      some (.native (to_native_format calls))
    else (to_xml_format calls).map .xml
  else (to_xml_format calls).map .xml

/-! ## The Model Registry (`core/ai_models/registry.py`)

The `Model` dataclass itself lives in `core/ai_models/ai_models.py`
(outside the staged sources); its fields are mirrored from the spec's
descriptor data model and from the registration sites in `registry.py`.
Enumerated variants (`provider`, `capabilities`) are carried as string
tags and the opaque `config` payload is omitted: the registry never
inspects them. -/

/-- Python `str.lower()` (character-wise, which agrees with Python on the
ASCII identifiers the registries index). -/
def pyLower (s : String) : String := String.mk (s.data.map Char.toLower)

/-- A chat-model descriptor. -/
structure Model where
  id : String
  name : String
  provider : String
  aliases : List String
  context_window : Nat
  capabilities : List String
  input_cost_per_million_tokens : ℚ
  output_cost_per_million_tokens : ℚ
  tier_availability : List String
  priority : Int
  recommended : Bool := false
  enabled : Bool := true

/-- ModelRegistry state: `_models` (id → descriptor) and `_aliases`
(lower-cased alias → id), both insertion-ordered dicts. -/
structure ModelRegistry where
  models : List (String × Model) := []
  aliases : List (String × String) := []

/-- ModelRegistry.register: insert/overwrite by id, then index the
lower-cased id and every lower-cased alias to the id. -/
def registryRegister (reg : ModelRegistry) (m : Model) : ModelRegistry :=
  { models := dictInsert reg.models m.id m,
    aliases :=
      m.aliases.foldl (fun a al => dictInsert a (pyLower al) m.id)
        (dictInsert reg.aliases (pyLower m.id) m.id) }

/-- ModelRegistry.get: `None`/empty input gives `None`; exact id match
first, then the case-insensitive alias table. -/
def registryGet (reg : ModelRegistry) (model_id : Option String) : Option Model :=
  match model_id with
  | none => none
  | some mid =>
      if mid = "" then none
      else
        match lookup reg.models mid with
        | some m => some m
        | none =>
            match lookup reg.aliases (pyLower mid) with
            | some actual => lookup reg.models actual
            | none => none

/-! ## The Embedding Registry (`core/ai_models/embedding_models.py`) -/

/-- The `EmbeddingProvider` enumeration. -/
inductive EmbeddingProvider where
  | openai : EmbeddingProvider
  | sentence_transformers : EmbeddingProvider
  | ollama : EmbeddingProvider
  | google : EmbeddingProvider
  | cohere : EmbeddingProvider
  | voyage : EmbeddingProvider
deriving DecidableEq

/-- The `EmbeddingModel` dataclass (after `__post_init__` has filled
`tier_availability`). -/
structure EmbeddingModel where
  id : String
  name : String
  provider : EmbeddingProvider
  dimensions : Nat
  max_input_tokens : Nat
  cost_per_million_tokens : ℚ
  aliases : List String
  enabled : Bool := true
  recommended : Bool := false
  priority : Int := 50
  tier_availability : List String
  requires_api_key : Bool := true
  is_local : Bool := false
  api_base : Option String := none
  model_name_in_api : Option String := none

/-- EmbeddingModelRegistry state. -/
structure EmbeddingModelRegistry where
  models : List (String × EmbeddingModel) := []
  aliases : List (String × String) := []

/-- EmbeddingModelRegistry.register. -/
def embRegister (reg : EmbeddingModelRegistry) (m : EmbeddingModel) :
    EmbeddingModelRegistry :=
  { models := dictInsert reg.models m.id m,
    aliases :=
      m.aliases.foldl (fun a al => dictInsert a (pyLower al) m.id)
        (dictInsert reg.aliases (pyLower m.id) m.id) }

/-- EmbeddingModelRegistry.get: same shape as ModelRegistry.get. -/
def embGet (reg : EmbeddingModelRegistry) (model_id : Option String) :
    Option EmbeddingModel :=
  match model_id with
  | none => none
  | some mid =>
      if mid = "" then none
      else
        match lookup reg.models mid with
        | some m => some m
        | none =>
            match lookup reg.aliases (pyLower mid) with
            | some actual => lookup reg.models actual
            | none => none

/-- EmbeddingModelRegistry.get_all: the catalog in registration order,
restricted to enabled descriptors when `enabled_only`. -/
def embGetAll (reg : EmbeddingModelRegistry) (enabled_only : Bool) :
    List EmbeddingModel :=
  let models := reg.models.map (·.2)
  if enabled_only then models.filter (·.enabled) else models

/-- The order `models.sort(key=lambda m: m.priority, reverse=True)` sorts
by: higher priority first. -/
def byPriorityDesc (a b : EmbeddingModel) : Prop := b.priority ≤ a.priority

instance : DecidableRel byPriorityDesc :=
  fun a b => inferInstanceAs (Decidable (b.priority ≤ a.priority))

instance : IsTotal EmbeddingModel byPriorityDesc :=
  ⟨fun a b => le_total b.priority a.priority⟩

instance : IsTrans EmbeddingModel byPriorityDesc :=
  ⟨fun _ _ _ h1 h2 => le_trans h2 h1⟩

/-- Python's stable `list.sort(key=lambda m: m.priority, reverse=True)`:
highest priority first, ties kept in original order (insertion sort is
stable, like Python's sort). -/
def sortByPriorityDesc (l : List EmbeddingModel) : List EmbeddingModel :=
  l.insertionSort byPriorityDesc

/-- EmbeddingModelRegistry.get_default_model: `None` on an empty enabled
catalog, else the head of the priority-descending sort. -/
def embGetDefaultModel (reg : EmbeddingModelRegistry) : Option EmbeddingModel :=
  let models := embGetAll reg true
  if models.isEmpty then none
  else (sortByPriorityDesc models).head?

/-- The module-level `get_embedding_model` helper: an explicit id is
looked up first (a miss logs a warning and falls through); otherwise the
default is returned, and a missing default raises `ValueError`. -/
def get_embedding_model (reg : EmbeddingModelRegistry) (model_id : Option String) :
    Except String EmbeddingModel :=
  match (match model_id with
         | some mid => if mid = "" then none else embGet reg (some mid)
         | none => none) with
  | some m => .ok m
  | none =>
      match embGetDefaultModel reg with
      | some d => .ok d
      | none =>
          .error "No embedding models available. Configure at least one embedding provider."

/-! ## Helper accessors and concrete example values (used by witnesses) -/

/-- The `id` entry of a native-format record. -/
def recordId (r : JVal) : JVal :=
  match r with
  | .obj kvs => pyGet kvs "id"
  | _ => .null

/-- The `function.name` entry of a native-format record. -/
def recordName (r : JVal) : JVal :=
  match r with
  | .obj kvs =>
      match pyGet kvs "function" with
      | .obj fkvs => pyGet fkvs "name"
      | _ => .null
  | _ => .null

/-- The decoded `function.arguments` entry of a native-format record. -/
def recordArgs (r : JVal) : Option JVal :=
  match r with
  | .obj kvs =>
      match pyGet kvs "function" with
      | .obj fkvs =>
          match pyGet fkvs "arguments" with
          | .str s => jsonLoads s
          | _ => none
      | _ => none
  | _ => none

/-- Two distinct normalized calls sharing a tool name, neither carrying a
`call_id`. -/
def wCall1 : NormalizedToolCall :=
  ⟨.str "web_search", .obj [("query", .str "alpha")], .null, .native, .null⟩

def wCall2 : NormalizedToolCall :=
  ⟨.str "web_search", .obj [("query", .str "beta")], .null, .native, .null⟩

/-- An enabled low-priority embedding descriptor. -/
def emb10 : EmbeddingModel :=
  { id := "st/all-MiniLM-L6-v2", name := "MiniLM", provider := .sentence_transformers,
    dimensions := 384, max_input_tokens := 512, cost_per_million_tokens := 0,
    aliases := ["all-MiniLM-L6-v2"], enabled := true, recommended := false,
    priority := 10, tier_availability := ["free", "paid"],
    requires_api_key := false, is_local := true }

/-- An enabled mid-priority embedding descriptor: the expected default. -/
def emb50 : EmbeddingModel :=
  { id := "google/text-embedding-004", name := "Gemini Embedding", provider := .google,
    dimensions := 768, max_input_tokens := 2048, cost_per_million_tokens := 0,
    aliases := ["text-embedding-004"], enabled := true, recommended := true,
    priority := 50, tier_availability := ["free", "paid"],
    requires_api_key := true, is_local := false }

/-- A disabled top-priority embedding descriptor: must never be default. -/
def emb99 : EmbeddingModel :=
  { id := "openai/text-embedding-3-large", name := "OpenAI Large", provider := .openai,
    dimensions := 3072, max_input_tokens := 8191, cost_per_million_tokens := 13/100,
    aliases := ["text-embedding-3-large"], enabled := false, recommended := false,
    priority := 99, tier_availability := ["paid"],
    requires_api_key := true, is_local := false }

/-- The catalog of the C7 scenario. -/
def exampleEmbReg : EmbeddingModelRegistry :=
  embRegister (embRegister (embRegister {} emb10) emb50) emb99

/-- A chat descriptor with id `"p/a"` and alias `"A"` (C6 scenario). -/
def exampleModel : Model :=
  { id := "p/a", name := "A model", provider := "anthropic", aliases := ["A"],
    context_window := 200000, capabilities := ["chat"],
    input_cost_per_million_tokens := 1, output_cost_per_million_tokens := 5,
    tier_availability := ["paid"], priority := 100, recommended := true,
    enabled := true }

/-! ## Printer–parser round trip for the embedded JSON codec -/

/-- The characters that may legally follow a serialised value inside a
larger serialisation (so greedy digit consumption stops correctly). -/
def restOk : List Char → Bool
  | [] => true
  | c :: _ => c == ',' || c == ']' || c == '}'

theorem skipWs_cons_ws {c : Char} (s : List Char) (h : isJsonWs c = true) :
    skipWs (c :: s) = skipWs s := by
  simp [skipWs, h]

theorem skipWs_cons_not_ws {c : Char} (s : List Char) (h : isJsonWs c = false) :
    skipWs (c :: s) = c :: s := by
  simp [skipWs, h]

theorem skipWs_append_ws (sp s : List Char) (h : ∀ c ∈ sp, isJsonWs c = true) :
    skipWs (sp ++ s) = skipWs s := by
  induction sp with
  | nil => rfl
  | cons c t ih =>
      rw [List.cons_append, skipWs_cons_ws _ (h c (by simp))]
      exact ih (fun d hd => h d (by simp [hd]))

theorem parseVal_ws_absorb (fuel : Nat) (sp s : List Char)
    (h : ∀ c ∈ sp, isJsonWs c = true) :
    parseVal fuel (sp ++ s) = parseVal fuel s := by
  cases fuel with
  | zero => rfl
  | succ fuel => simp only [parseVal, skipWs_append_ws sp s h]

/-- The bundled facts about decimal digit characters the round-trip proof
dispatches on. -/
theorem digitChar_facts (d : Nat) (h : d < 10) :
    (digitChar d).isDigit = true ∧ isJsonWs (digitChar d) = false ∧
    (digitChar d).toNat - 48 = d ∧
    digitChar d ≠ 'n' ∧ digitChar d ≠ 't' ∧ digitChar d ≠ 'f' ∧
    digitChar d ≠ '"' ∧ digitChar d ≠ '[' ∧ digitChar d ≠ '{' ∧
    digitChar d ≠ '-' ∧ digitChar d ≠ ']' ∧ digitChar d ≠ '}' ∧
    digitChar d ≠ ',' ∧ (digitChar d = '0' ↔ d = 0) := by
  revert h
  revert d
  decide

theorem hexVal_hexChar (x : Nat) (h : x < 16) : hexVal (hexChar x) = some x := by
  revert h
  revert x
  decide

theorem restOk_head_not_digit {c : Char} {t : List Char}
    (hr : restOk (c :: t) = true) : c.isDigit = false := by
  simp only [restOk] at hr
  rcases Bool.or_eq_true_iff.mp hr with h | h
  · rcases Bool.or_eq_true_iff.mp h with h | h <;>
      · simp only [beq_iff_eq] at h; subst h; rfl
  · simp only [beq_iff_eq] at h; subst h; rfl

theorem parseDigits_stop (rest : List Char) (acc : Nat) (hr : restOk rest = true) :
    parseDigits rest acc = (acc, rest) := by
  cases rest with
  | nil => rfl
  | cons c t => simp [parseDigits, restOk_head_not_digit hr]

theorem natToChars_base {n : Nat} (h : n < 10) : natToChars n = [digitChar n] := by
  rw [natToChars]
  simp [h]

theorem natToChars_step {n : Nat} (h : ¬n < 10) :
    natToChars n = natToChars (n / 10) ++ [digitChar (n % 10)] := by
  conv_lhs => rw [natToChars]
  simp [h]

theorem natToChars_head (n : Nat) :
    ∃ d t, d < 10 ∧ natToChars n = digitChar d :: t ∧ (d = 0 → n = 0) := by
  induction n using Nat.strong_induction_on with
  | _ n ih =>
      by_cases h : n < 10
      · exact ⟨n, [], h, natToChars_base h, fun h0 => h0⟩
      · obtain ⟨d, t, hd, hrep, hz⟩ := ih (n / 10) (Nat.div_lt_self (by omega) (by omega))
        refine ⟨d, t ++ [digitChar (n % 10)], hd, ?_, ?_⟩
        · rw [natToChars_step h, hrep]; rfl
        · intro h0
          have := hz h0
          omega

theorem parseDigits_natToChars (n : Nat) :
    ∀ acc rest, parseDigits (natToChars n ++ rest) acc =
      parseDigits rest (acc * 10 ^ (natToChars n).length + n) := by
  induction n using Nat.strong_induction_on with
  | _ n ih =>
      intro acc rest
      by_cases h : n < 10
      · rw [natToChars_base h]
        obtain ⟨hdig, _, htn, _⟩ := digitChar_facts n h
        simp [parseDigits, hdig, htn]
      · rw [natToChars_step h, List.append_assoc]
        rw [ih (n / 10) (Nat.div_lt_self (by omega) (by omega))]
        obtain ⟨hdig, _, htn, _⟩ := digitChar_facts (n % 10) (by omega)
        simp only [List.singleton_append, parseDigits, hdig, if_true, htn]
        congr 1
        simp only [List.length_append, List.length_cons, List.length_nil]
        have hmod : n / 10 * 10 + n % 10 = n := by omega
        calc (acc * 10 ^ (natToChars (n / 10)).length + n / 10) * 10 + n % 10
            = acc * (10 ^ (natToChars (n / 10)).length * 10) +
                (n / 10 * 10 + n % 10) := by ring
          _ = acc * 10 ^ ((natToChars (n / 10)).length + (0 + 1)) + n := by
                rw [hmod]; ring_nf
          _ = _ := by norm_num

theorem parseNumBody_natToChars (n : Nat) (rest : List Char)
    (hr : restOk rest = true) :
    parseNumBody (natToChars n ++ rest) = some (n, rest) := by
  obtain ⟨d, t, hd, hrep, hz⟩ := natToChars_head n
  obtain ⟨hdig, _, _, _, _, _, _, _, _, _, _, _, _, hzero⟩ := digitChar_facts d hd
  rw [hrep, List.cons_append]
  have hguard : (digitChar d = '0' &&
      (match t ++ rest with | d :: _ => d.isDigit | [] => false)) = false := by
    by_cases h0 : d = 0
    · have hn0 : n = 0 := hz h0
      have ht : t = [] := by
        have h2 := hrep
        rw [hn0, natToChars_base (by omega)] at h2
        exact ((List.cons.injEq _ _ _ _).mp h2).2.symm
      rw [ht]
      simp only [List.nil_append]
      cases rest with
      | nil => simp
      | cons c t2 => simp [restOk_head_not_digit hr]
    · have : digitChar d ≠ '0' := fun hc => h0 (hzero.mp hc)
      simp [this]
  simp only [parseNumBody, hdig, if_true, hguard, Bool.false_eq_true, if_false]
  rw [← List.cons_append, ← hrep, parseDigits_natToChars]
  rw [parseDigits_stop _ _ hr]
  simp


theorem psb_quote (r : List Char) : parseStringBody ('"' :: r) = some ([], r) := by
  rw [parseStringBody.eq_def]; rfl

theorem psb_esc (e : Char) (r : List Char) (he : ¬e = 'u') :
    parseStringBody ('\\' :: e :: r) =
      (match unescape e with
       | some d => (parseStringBody r).map (fun p => (d :: p.1, p.2))
       | none => none) := by
  rw [parseStringBody.eq_def]
  simp only [if_neg (by decide : ¬('\\' : Char) = '"'), if_pos rfl]
  cases r with
  | nil => simp [he]
  | cons a r2 => simp [he]

theorem psb_u (h1 h2 h3 h4 : Char) (r : List Char) :
    parseStringBody ('\\' :: 'u' :: h1 :: h2 :: h3 :: h4 :: r) =
      (match hexVal h1, hexVal h2, hexVal h3, hexVal h4 with
       | some a, some b, some c3, some d =>
           (parseStringBody r).map
             (fun p => (Char.ofNat (a * 4096 + b * 256 + c3 * 16 + d) :: p.1, p.2))
       | _, _, _, _ => none) := by
  rw [parseStringBody.eq_def]
  rfl

theorem psb_plain (c : Char) (r : List Char) (h1 : ¬c = '"') (h2 : ¬c = '\\')
    (h3 : ¬c.toNat < 32) :
    parseStringBody (c :: r) = (parseStringBody r).map (fun p => (c :: p.1, p.2)) := by
  rw [parseStringBody.eq_def]
  simp [h1, h2, h3]

theorem parseStringBody_escStr (cs : List Char) :
    ∀ rest, parseStringBody (escStr cs ++ '"' :: rest) = some (cs, rest) := by
  induction cs with
  | nil => intro rest; exact psb_quote rest
  | cons c cs ih =>
      intro rest
      show parseStringBody ((escChar c ++ escStr cs) ++ '"' :: rest) = _
      rw [List.append_assoc]
      by_cases hq : c = '"'
      · subst hq
        rw [show escChar '"' = ['\\', '"'] from rfl, List.cons_append, List.cons_append,
          List.nil_append]
        rw [psb_esc '"' _ (by decide)]
        simp [unescape, ih rest]
      · by_cases hb : c = '\\'
        · subst hb
          rw [show escChar '\\' = ['\\', '\\'] from rfl, List.cons_append,
            List.cons_append, List.nil_append]
          rw [psb_esc '\\' _ (by decide)]
          simp [unescape, ih rest]
        · by_cases h3 : c.toNat < 32
          · rw [show escChar c = ['\\', 'u', '0', '0', hexChar (c.toNat / 16),
                hexChar (c.toNat % 16)] from by simp [escChar, hq, hb, h3]]
            simp only [List.cons_append, List.nil_append]
            rw [psb_u]
            have hhi := hexVal_hexChar (c.toNat / 16) (by omega)
            have hlo := hexVal_hexChar (c.toNat % 16) (by omega)
            rw [show hexVal '0' = some 0 from rfl, hhi, hlo]
            simp only [ih rest, Option.map_some']
            rw [show (0 : Nat) * 4096 + 0 * 256 + c.toNat / 16 * 16 + c.toNat % 16 =
                  c.toNat by omega]
            rw [Char.ofNat_toNat]
          · rw [show escChar c = [c] from by simp [escChar, hq, hb, h3],
              List.singleton_append]
            rw [psb_plain c _ hq hb h3]
            simp [ih rest]

theorem dumpVal_head (v : JVal) :
    ∃ c t, dumpVal v = c :: t ∧ isJsonWs c = false ∧
      c ≠ ']' ∧ c ≠ '}' ∧ c ≠ ',' := by
  cases v with
  | null => exact ⟨'n', _, rfl, by decide, by decide, by decide, by decide⟩
  | bool b =>
      cases b with
      | true => exact ⟨'t', _, rfl, by decide, by decide, by decide, by decide⟩
      | false => exact ⟨'f', _, rfl, by decide, by decide, by decide, by decide⟩
  | num i =>
      show ∃ c t, intToChars i = c :: t ∧ _
      by_cases hi : i < 0
      · refine ⟨'-', natToChars i.natAbs, ?_, by decide, by decide, by decide, by decide⟩
        simp [intToChars, hi]
      · obtain ⟨d, t, hd, hrep, _⟩ := natToChars_head i.natAbs
        obtain ⟨_, hws, _, _, _, _, _, _, _, _, hne1, hne2, hne3, _⟩ :=
          digitChar_facts d hd
        refine ⟨digitChar d, t, ?_, hws, hne1, hne2, hne3⟩
        simp [intToChars, hi, hrep]
  | str s => exact ⟨'"', _, rfl, by decide, by decide, by decide, by decide⟩
  | arr xs => exact ⟨'[', _, rfl, by decide, by decide, by decide, by decide⟩
  | obj kvs => exact ⟨'{', _, rfl, by decide, by decide, by decide, by decide⟩

theorem dumpVal_length_pos (v : JVal) : 0 < (dumpVal v).length := by
  obtain ⟨c, t, h, _⟩ := dumpVal_head v
  simp [h]

theorem dumpStr_length (s : String) : 2 ≤ (dumpStr s).length := by
  simp only [dumpStr, List.length_cons, List.length_append]
  omega

theorem dumpElems_head {xs : List JVal} (h : xs ≠ []) :
    ∃ c t, dumpElems xs = c :: t ∧ isJsonWs c = false ∧
      c ≠ ']' ∧ c ≠ '}' ∧ c ≠ ',' := by
  match xs with
  | [] => exact absurd rfl h
  | [v] =>
      obtain ⟨c, t, hct, hr⟩ := dumpVal_head v
      exact ⟨c, t, by rw [dumpElems, hct], hr⟩
  | v :: w :: rest =>
      obtain ⟨c, t, hct, hr⟩ := dumpVal_head v
      refine ⟨c, t ++ ',' :: ' ' :: dumpElems (w :: rest), ?_, hr⟩
      have he : dumpElems (v :: w :: rest) =
          dumpVal v ++ ',' :: ' ' :: dumpElems (w :: rest) := by
        rw [dumpElems]; simp
      rw [he, hct]
      rfl

theorem dumpMembers_head {kvs : List (String × JVal)} (h : kvs ≠ []) :
    ∃ t, dumpMembers kvs = '"' :: t := by
  match kvs with
  | [] => exact absurd rfl h
  | [(k, v)] =>
      refine ⟨escStr k.data ++ ['"'] ++ ':' :: ' ' :: dumpVal v, ?_⟩
      rw [dumpMembers, dumpStr]
      simp
  | (k, v) :: m :: rest =>
      refine ⟨escStr k.data ++ ['"'] ++ ':' :: ' ' :: dumpVal v ++
        ',' :: ' ' :: dumpMembers (m :: rest), ?_⟩
      have he : dumpMembers ((k, v) :: m :: rest) =
          dumpStr k ++ ':' :: ' ' :: dumpVal v ++ ',' :: ' ' :: dumpMembers (m :: rest) := by
        rw [dumpMembers]; simp
      rw [he, dumpStr]
      simp

theorem dictInsert_fresh {β : Type} (acc : List (String × β)) (k : String) (v : β)
    (h : ∀ p ∈ acc, p.1 ≠ k) : dictInsert acc k v = acc ++ [(k, v)] := by
  induction acc with
  | nil => rfl
  | cons p rest ih =>
      have hp : p.1 ≠ k := h p (by simp)
      obtain ⟨pk, pv⟩ := p
      simp only [dictInsert, if_neg hp, List.cons_append]
      rw [ih (fun q hq => h q (by simp [hq]))]

theorem foldl_dictInsert_of_nodup (kvs : List (String × JVal))
    (hnd : keysNodup kvs = true) :
    ∀ acc, (∀ p ∈ acc, ∀ q ∈ kvs, p.1 ≠ q.1) →
      kvs.foldl (fun acc kv => dictInsert acc kv.1 kv.2) acc = acc ++ kvs := by
  induction kvs with
  | nil => intro acc _; simp
  | cons kv rest ih =>
      intro acc hfresh
      obtain ⟨k, v⟩ := kv
      simp only [keysNodup, Bool.and_eq_true, List.all_eq_true] at hnd
      simp only [List.foldl_cons]
      rw [show dictInsert acc k v = acc ++ [(k, v)] from
        dictInsert_fresh acc k v (fun p hp => hfresh p hp (k, v) (by simp))]
      rw [ih hnd.2 (acc ++ [(k, v)]) ?_]
      · simp
      · intro p hp q hq
        rcases List.mem_append.mp hp with hp1 | hp2
        · exact hfresh p hp1 q (by simp [hq])
        · have hpk : p = (k, v) := by simpa using hp2
          subst hpk
          have h2 := hnd.1 q hq
          simp only [Bool.not_eq_eq_eq_not, Bool.not_true, beq_eq_false_iff_ne,
            ne_eq] at h2
          exact fun hke => h2 (by simpa using hke.symm)


theorem parseVal_succ_cons (fuel : Nat) (c : Char) (tail : List Char)
    (h : isJsonWs c = false) :
    parseVal (fuel + 1) (c :: tail) =
      (if c = 'n' then (stripLit ['u', 'l', 'l'] tail).map (fun r => (JVal.null, r))
       else if c = 't' then (stripLit ['r', 'u', 'e'] tail).map (fun r => (JVal.bool true, r))
       else if c = 'f' then (stripLit ['a', 'l', 's', 'e'] tail).map (fun r => (JVal.bool false, r))
       else if c = '"' then (parseStringBody tail).map (fun p => (JVal.str (String.mk p.1), p.2))
       else if c = '[' then
         match skipWs tail with
         | [] => none
         | c2 :: r2 =>
             if c2 = ']' then some (JVal.arr [], r2)
             else (parseElems fuel (c2 :: r2)).map (fun p => (JVal.arr p.1, p.2))
       else if c = '{' then
         match skipWs tail with
         | [] => none
         | c2 :: r2 =>
             if c2 = '}' then some (JVal.obj [], r2)
             else
               (parseMembers fuel (c2 :: r2)).map
                 (fun p =>
                   (JVal.obj (p.1.foldl (fun acc kv => dictInsert acc kv.1 kv.2) []), p.2))
       else if c = '-' then (parseNumBody tail).map (fun p => (JVal.num (-(p.1 : Int)), p.2))
       else (parseNumBody (c :: tail)).map (fun p => (JVal.num (p.1 : Int), p.2))) := by
  rw [parseVal.eq_def]
  simp only [skipWs_cons_not_ws _ h]

theorem parseElems_succ (fuel : Nat) (s : List Char) :
    parseElems (fuel + 1) s =
      (match parseVal fuel s with
       | none => none
       | some (v, r) =>
           match skipWs r with
           | ',' :: r2 => (parseElems fuel r2).map (fun p => (v :: p.1, p.2))
           | ']' :: r2 => some ([v], r2)
           | _ => none) := by
  rw [parseElems.eq_def]

theorem parseMembers_succ (fuel : Nat) (s : List Char) :
    parseMembers (fuel + 1) s =
      (match skipWs s with
       | '"' :: r =>
           (match parseStringBody r with
            | none => none
            | some (kcs, r2) =>
                match skipWs r2 with
                | ':' :: r3 =>
                    (match parseVal fuel r3 with
                     | none => none
                     | some (v, r4) =>
                         match skipWs r4 with
                         | ',' :: r5 =>
                             (parseMembers fuel r5).map
                               (fun p => ((String.mk kcs, v) :: p.1, p.2))
                         | '}' :: r5 => some ([(String.mk kcs, v)], r5)
                         | _ => none)
                | _ => none)
       | _ => none) := by
  rw [parseMembers.eq_def]

theorem parseMembers_ws_absorb (fuel : Nat) (sp s : List Char)
    (h : ∀ c ∈ sp, isJsonWs c = true) :
    parseMembers fuel (sp ++ s) = parseMembers fuel s := by
  cases fuel with
  | zero => rfl
  | succ fuel => rw [parseMembers_succ, parseMembers_succ, skipWs_append_ws sp s h]

theorem parseMembers_key (fuel : Nat) (kcs Y : List Char) :
    parseMembers (fuel + 1) ('"' :: (escStr kcs ++ '"' :: (':' :: (' ' :: Y)))) =
      (match parseVal fuel (' ' :: Y) with
       | none => none
       | some (v, r4) =>
           match skipWs r4 with
           | ',' :: r5 =>
               (parseMembers fuel r5).map (fun p => ((String.mk kcs, v) :: p.1, p.2))
           | '}' :: r5 => some ([(String.mk kcs, v)], r5)
           | _ => none) := by
  rw [parseMembers_succ, skipWs_cons_not_ws _ (by decide)]
  show (match parseStringBody (escStr kcs ++ '"' :: (':' :: (' ' :: Y))) with
        | none => none
        | some (kcs2, r2) =>
            match skipWs r2 with
            | ':' :: r3 =>
                (match parseVal fuel r3 with
                 | none => none
                 | some (v, r4) =>
                     match skipWs r4 with
                     | ',' :: r5 =>
                         (parseMembers fuel r5).map
                           (fun (p : List (String × JVal) × List Char) =>
                             ((String.mk kcs2, v) :: p.1, p.2))
                     | '}' :: r5 => some ([(String.mk kcs2, v)], r5)
                     | _ => none)
            | _ => none) = _
  rw [parseStringBody_escStr kcs]
  rfl

theorem parse_dump (fuel : Nat) :
    (∀ (v : JVal) (rest : List Char), (dumpVal v).length < fuel →
       restOk rest = true → pyWF v = true →
       parseVal fuel (dumpVal v ++ rest) = some (v, rest)) ∧
    (∀ (xs : List JVal) (sp rest : List Char), xs ≠ [] →
       (∀ c ∈ sp, isJsonWs c = true) → (dumpElems xs).length + 1 < fuel →
       pyWFList xs = true →
       parseElems fuel (sp ++ (dumpElems xs ++ ']' :: rest)) = some (xs, rest)) ∧
    (∀ (kvs : List (String × JVal)) (sp rest : List Char), kvs ≠ [] →
       (∀ c ∈ sp, isJsonWs c = true) → (dumpMembers kvs).length + 1 < fuel →
       pyWFMembers kvs = true →
       parseMembers fuel (sp ++ (dumpMembers kvs ++ '}' :: rest)) = some (kvs, rest)) := by
  induction fuel with
  | zero =>
      exact ⟨fun v rest h _ _ => absurd h (by omega),
             fun xs sp rest _ _ h _ => absurd h (by omega),
             fun kvs sp rest _ _ h _ => absurd h (by omega)⟩
  | succ fuel ih =>
      obtain ⟨ihA, ihB, ihC⟩ := ih
      refine ⟨?_, ?_, ?_⟩
      · -- parseVal consumes dumpVal
        intro v rest hlen hrest hwf
        cases v with
        | null =>
            rw [show dumpVal .null ++ rest = 'n' :: ('u' :: 'l' :: 'l' :: rest) from rfl]
            rw [parseVal_succ_cons _ _ _ (by decide)]
            simp [stripLit]
        | bool b =>
            cases b with
            | true =>
                rw [show dumpVal (.bool true) ++ rest =
                      't' :: ('r' :: 'u' :: 'e' :: rest) from rfl]
                rw [parseVal_succ_cons _ _ _ (by decide)]
                simp [stripLit]
            | false =>
                rw [show dumpVal (.bool false) ++ rest =
                      'f' :: ('a' :: 'l' :: 's' :: 'e' :: rest) from rfl]
                rw [parseVal_succ_cons _ _ _ (by decide)]
                simp [stripLit]
        | str s =>
            rw [show dumpVal (.str s) ++ rest =
                  '"' :: (escStr s.data ++ '"' :: rest) from by
              simp [show dumpVal (.str s) = dumpStr s from rfl, dumpStr]]
            rw [parseVal_succ_cons _ _ _ (by decide)]
            simp only [if_neg (by decide : ¬('"':Char) = 'n'),
              if_neg (by decide : ¬('"':Char) = 't'),
              if_neg (by decide : ¬('"':Char) = 'f'), if_pos rfl]
            rw [parseStringBody_escStr s.data rest]
            simp [show String.mk s.data = s from by cases s; rfl]
        | num i =>
            by_cases hi : i < 0
            · rw [show dumpVal (.num i) ++ rest =
                    '-' :: (natToChars i.natAbs ++ rest) from by
                simp [show dumpVal (.num i) = intToChars i from rfl, intToChars, hi]]
              rw [parseVal_succ_cons _ _ _ (by decide)]
              simp only [if_neg (by decide : ¬('-':Char) = 'n'),
                if_neg (by decide : ¬('-':Char) = 't'),
                if_neg (by decide : ¬('-':Char) = 'f'),
                if_neg (by decide : ¬('-':Char) = '"'),
                if_neg (by decide : ¬('-':Char) = '['),
                if_neg (by decide : ¬('-':Char) = '{'), if_pos rfl]
              rw [parseNumBody_natToChars _ _ hrest]
              simp only [Option.map_some']
              rw [show (-((i.natAbs : Nat) : Int)) = i from by omega]
              simp
            · obtain ⟨d, t, hd, hrep, _⟩ := natToChars_head i.natAbs
              obtain ⟨hdig, hws, htn, hn1, hn2, hn3, hn4, hn5, hn6, hn7, _, _, _, _⟩ :=
                digitChar_facts d hd
              rw [show dumpVal (.num i) ++ rest = natToChars i.natAbs ++ rest from by
                simp [show dumpVal (.num i) = intToChars i from rfl, intToChars, hi]]
              rw [hrep, List.cons_append]
              rw [parseVal_succ_cons _ _ _ hws]
              simp only [if_neg hn1, if_neg hn2, if_neg hn3, if_neg hn4,
                if_neg hn5, if_neg hn6, if_neg hn7]
              rw [← List.cons_append, ← hrep, parseNumBody_natToChars _ _ hrest]
              simp only [Option.map_some']
              rw [show (((i.natAbs : Nat) : Int)) = i from by omega]
        | arr xs =>
            rw [show dumpVal (.arr xs) ++ rest =
                  '[' :: (dumpElems xs ++ ']' :: rest) from by
              simp [show dumpVal (.arr xs) = '[' :: dumpElems xs ++ [']'] from rfl]]
            rw [parseVal_succ_cons _ _ _ (by decide)]
            simp only [if_neg (by decide : ¬('[':Char) = 'n'),
              if_neg (by decide : ¬('[':Char) = 't'),
              if_neg (by decide : ¬('[':Char) = 'f'),
              if_neg (by decide : ¬('[':Char) = '"'), if_pos rfl]
            cases xs with
            | nil =>
                rw [show dumpElems [] ++ ']' :: rest = ']' :: rest from rfl]
                rw [skipWs_cons_not_ws _ (by decide)]
                simp
            | cons x xs2 =>
                obtain ⟨c, t, hct, hcws, hcbr, _, _⟩ := dumpElems_head
                  (show x :: xs2 ≠ [] by simp)
                rw [hct, List.cons_append, skipWs_cons_not_ws _ hcws]
                simp only [if_neg hcbr]
                rw [← List.cons_append, ← hct]
                have hlen2 : (dumpElems (x :: xs2)).length + 1 < fuel := by
                  rw [show dumpVal (.arr (x :: xs2)) =
                      '[' :: dumpElems (x :: xs2) ++ [']'] from rfl] at hlen
                  simp only [List.length_cons, List.length_append,
                    List.length_singleton] at hlen
                  omega
                rw [show dumpElems (x :: xs2) ++ ']' :: rest =
                      [] ++ (dumpElems (x :: xs2) ++ ']' :: rest) from rfl]
                rw [ihB (x :: xs2) [] rest (by simp) (by simp) hlen2
                  (by simpa [pyWF] using hwf)]
                simp
        | obj kvs =>
            rw [show dumpVal (.obj kvs) ++ rest =
                  '{' :: (dumpMembers kvs ++ '}' :: rest) from by
              simp [show dumpVal (.obj kvs) = '{' :: dumpMembers kvs ++ ['}'] from rfl]]
            rw [parseVal_succ_cons _ _ _ (by decide)]
            simp only [if_neg (by decide : ¬('{':Char) = 'n'),
              if_neg (by decide : ¬('{':Char) = 't'),
              if_neg (by decide : ¬('{':Char) = 'f'),
              if_neg (by decide : ¬('{':Char) = '"'),
              if_neg (by decide : ¬('{':Char) = '['), if_pos rfl]
            have hwf2 : keysNodup kvs = true ∧ pyWFMembers kvs = true := by
              simpa [pyWF] using hwf
            cases kvs with
            | nil =>
                rw [show dumpMembers [] ++ '}' :: rest = '}' :: rest from rfl]
                rw [skipWs_cons_not_ws _ (by decide)]
                simp
            | cons kv kvs2 =>
                obtain ⟨t, hct⟩ := dumpMembers_head (show kv :: kvs2 ≠ [] by simp)
                rw [hct, List.cons_append, skipWs_cons_not_ws _ (by decide)]
                simp only [if_neg (by decide : ¬('"':Char) = '}')]
                rw [← List.cons_append, ← hct]
                have hlen2 : (dumpMembers (kv :: kvs2)).length + 1 < fuel := by
                  rw [show dumpVal (.obj (kv :: kvs2)) =
                      '{' :: dumpMembers (kv :: kvs2) ++ ['}'] from rfl] at hlen
                  simp only [List.length_cons, List.length_append,
                    List.length_singleton] at hlen
                  omega
                rw [show dumpMembers (kv :: kvs2) ++ '}' :: rest =
                      [] ++ (dumpMembers (kv :: kvs2) ++ '}' :: rest) from rfl]
                rw [ihC (kv :: kvs2) [] rest (by simp) (by simp) hlen2 hwf2.2]
                simp only [Option.map_some']
                rw [foldl_dictInsert_of_nodup (kv :: kvs2) hwf2.1 [] (by simp)]
                simp
      · -- parseElems consumes dumpElems
        intro xs sp rest hne hsp hlen hwf
        match xs with
        | [] => exact absurd rfl hne
        | [x] =>
            rw [parseElems_succ]
            rw [show sp ++ (dumpElems [x] ++ ']' :: rest) =
                  sp ++ (dumpVal x ++ ']' :: rest) from by rw [dumpElems]]
            rw [parseVal_ws_absorb fuel sp _ hsp]
            have hlx : (dumpVal x).length < fuel := by
              rw [show dumpElems [x] = dumpVal x from by rw [dumpElems]] at hlen
              omega
            rw [ihA x (']' :: rest) hlx (by rfl)
              (by simpa [pyWFList] using hwf)]
            rfl
        | x :: y :: xs2 =>
            rw [parseElems_succ]
            have hde : dumpElems (x :: y :: xs2) =
                dumpVal x ++ ',' :: ' ' :: dumpElems (y :: xs2) := by
              rw [dumpElems]; simp
            rw [hde]
            rw [show sp ++ ((dumpVal x ++ ',' :: ' ' :: dumpElems (y :: xs2)) ++
                    ']' :: rest) =
                  sp ++ (dumpVal x ++
                    (',' :: (' ' :: (dumpElems (y :: xs2) ++ ']' :: rest))))
              from by simp]
            rw [parseVal_ws_absorb fuel sp _ hsp]
            have hwf2 : pyWF x = true ∧ pyWFList (y :: xs2) = true := by
              simpa [pyWFList] using hwf
            have hlx : (dumpVal x).length < fuel := by
              rw [hde] at hlen
              simp only [List.length_append, List.length_cons] at hlen
              omega
            rw [ihA x _ hlx (by rfl) hwf2.1]
            show (parseElems fuel (' ' :: (dumpElems (y :: xs2) ++ ']' :: rest))).map
                (fun p => (x :: p.1, p.2)) = some (x :: y :: xs2, rest)
            rw [show (' ' :: (dumpElems (y :: xs2) ++ ']' :: rest)) =
                  [' '] ++ (dumpElems (y :: xs2) ++ ']' :: rest) from rfl]
            have hly : (dumpElems (y :: xs2)).length + 1 < fuel := by
              rw [hde] at hlen
              have := dumpVal_length_pos x
              simp only [List.length_append, List.length_cons] at hlen
              omega
            rw [ihB (y :: xs2) [' '] rest (by simp) (by simp [isJsonWs]) hly hwf2.2]
            rfl
      · -- parseMembers consumes dumpMembers
        intro kvs sp rest hne hsp hlen hwf
        match kvs with
        | [] => exact absurd rfl hne
        | [(k, v)] =>
            have hdm : dumpMembers [(k, v)] = dumpStr k ++ ':' :: ' ' :: dumpVal v := by
              rw [dumpMembers]
            rw [parseMembers_ws_absorb (fuel + 1) sp _ hsp]
            rw [show dumpMembers [(k, v)] ++ '}' :: rest =
                  '"' :: (escStr k.data ++ '"' ::
                    (':' :: (' ' :: (dumpVal v ++ '}' :: rest)))) from by
              rw [hdm]; simp [dumpStr]]
            rw [parseMembers_key fuel k.data (dumpVal v ++ '}' :: rest)]
            rw [show (' ' :: (dumpVal v ++ '}' :: rest)) =
                  [' '] ++ (dumpVal v ++ '}' :: rest) from rfl]
            rw [parseVal_ws_absorb fuel [' '] _ (by simp [isJsonWs])]
            have hlv : (dumpVal v).length < fuel := by
              rw [hdm] at hlen
              have := dumpStr_length k
              simp only [List.length_append, List.length_cons] at hlen
              omega
            rw [ihA v _ hlv (by rfl) (by simpa [pyWFMembers] using hwf)]
            rfl
        | (k, v) :: m :: kvs2 =>
            have hdm : dumpMembers ((k, v) :: m :: kvs2) =
                dumpStr k ++ ':' :: ' ' :: dumpVal v ++
                  ',' :: ' ' :: dumpMembers (m :: kvs2) := by
              rw [dumpMembers]; simp
            rw [parseMembers_ws_absorb (fuel + 1) sp _ hsp]
            rw [show dumpMembers ((k, v) :: m :: kvs2) ++ '}' :: rest =
                  '"' :: (escStr k.data ++ '"' ::
                    (':' :: (' ' :: (dumpVal v ++
                      (',' :: (' ' :: (dumpMembers (m :: kvs2) ++ '}' :: rest)))))))
              from by rw [hdm]; simp [dumpStr]]
            rw [parseMembers_key fuel k.data
              (dumpVal v ++ (',' :: (' ' :: (dumpMembers (m :: kvs2) ++ '}' :: rest))))]
            rw [show (' ' :: (dumpVal v ++
                  (',' :: (' ' :: (dumpMembers (m :: kvs2) ++ '}' :: rest))))) =
                  [' '] ++ (dumpVal v ++
                    (',' :: (' ' :: (dumpMembers (m :: kvs2) ++ '}' :: rest)))) from rfl]
            rw [parseVal_ws_absorb fuel [' '] _ (by simp [isJsonWs])]
            have hwf2 : pyWF v = true ∧ pyWFMembers (m :: kvs2) = true := by
              simpa [pyWFMembers] using hwf
            have hlv : (dumpVal v).length < fuel := by
              rw [hdm] at hlen
              have := dumpStr_length k
              simp only [List.length_append, List.length_cons] at hlen
              omega
            rw [ihA v _ hlv (by rfl) hwf2.1]
            show (parseMembers fuel
                (' ' :: (dumpMembers (m :: kvs2) ++ '}' :: rest))).map
                (fun p => ((String.mk k.data, v) :: p.1, p.2)) =
              some ((k, v) :: m :: kvs2, rest)
            rw [show (' ' :: (dumpMembers (m :: kvs2) ++ '}' :: rest)) =
                  [' '] ++ (dumpMembers (m :: kvs2) ++ '}' :: rest) from rfl]
            rw [parseMembers_ws_absorb fuel [' '] _ (by simp [isJsonWs])]
            have hlm : (dumpMembers (m :: kvs2)).length + 1 < fuel := by
              rw [hdm] at hlen
              have h1 := dumpStr_length k
              have h2 := dumpVal_length_pos v
              simp only [List.length_append, List.length_cons] at hlen
              omega
            rw [show dumpMembers (m :: kvs2) ++ '}' :: rest =
                  [] ++ (dumpMembers (m :: kvs2) ++ '}' :: rest) from rfl]
            rw [ihC (m :: kvs2) [] rest (by simp) (by simp) hlm hwf2.2]
            rfl

/-- The central codec fact: the embedded `json.loads` decodes the embedded
`json.dumps` of any well-formed value back to that value. -/
theorem jsonLoads_jsonDumps (v : JVal) (hwf : pyWF v = true) :
    jsonLoads (jsonDumps v) = some v := by
  show (match parseVal ((String.mk (dumpVal v)).data.length + 1)
          (String.mk (dumpVal v)).data with
        | some (w, rest) => if skipWs rest = [] then some w else none
        | none => none) = some v
  have h := (parse_dump ((dumpVal v).length + 1)).1 v [] (by omega) (by rfl) hwf
  rw [List.append_nil] at h
  rw [show (String.mk (dumpVal v)).data = dumpVal v from rfl, h]
  rfl


/-! ## Well-formed native records (for C2) -/

/-- The decoded parameter mapping an accepted `arguments` payload yields:
a missing payload defaults to the empty mapping (shape A supplies the
string `"{}"`, shape B the empty dict — same decoded result); a string
payload must be empty (short-circuited to `{}`) or parse; any other
payload is taken as-is. -/
def WFArguments (args : Option JVal) (ps : JVal) : Prop :=
  match args with
  | none => ps = .obj []
  | some (.str s) => (s = "" ∧ ps = .obj []) ∨ (s ≠ "" ∧ jsonLoads s = some ps)
  | some v => ps = v

/-- A well-formed native tool-call record carrying tool name `nm` and
decoded argument mapping `ps`: the OpenAI shape
`{type: "function", function: {name, arguments}}`, or the flat
`{name, arguments}` shape when the OpenAI test fails. -/
def WFNativeRecord (r : JVal) (nm : String) (ps : JVal) : Prop :=
  ∃ kvs, r = .obj kvs ∧
    ((pyEqStr (pyGet kvs "type") "function" = true ∧
      ∃ fkvs, lookup kvs "function" = some (.obj fkvs) ∧
        lookup fkvs "name" = some (.str nm) ∧
        WFArguments (lookup fkvs "arguments") ps) ∨
     (¬(pyEqStr (pyGet kvs "type") "function" = true ∧
          (lookup kvs "function").isSome = true) ∧
      lookup kvs "name" = some (.str nm) ∧
      WFArguments (lookup kvs "arguments") ps))

theorem parseSingleNativeCall_of_wf {r : JVal} {nm : String} {ps : JVal}
    (h : WFNativeRecord r nm ps) :
    ∃ cid, parseSingleNativeCall r = some ⟨.str nm, ps, cid, .native, r⟩ := by
  obtain ⟨kvs, rfl, hshape⟩ := h
  rcases hshape with ⟨hty, fkvs, hfn, hnm, hargs⟩ | ⟨hnotA, hnm, hargs⟩
  · refine ⟨pyGet kvs "id", ?_⟩
    have hcond : (pyEqStr (pyGet kvs "type") "function" &&
        (lookup kvs "function").isSome) = true := by
      rw [hty, hfn]; rfl
    have hg : pyGet kvs "function" = .obj fkvs := by simp [pyGet, hfn]
    have hnmv : pyGet fkvs "name" = .str nm := by simp [pyGet, hnm]
    simp only [parseSingleNativeCall, hcond, if_true, hg, hnmv]
    cases hlv : lookup fkvs "arguments" with
    | none =>
        rw [hlv] at hargs
        simp only [WFArguments] at hargs
        subst hargs
        simp [show jsonLoads "{}" = some (.obj []) from rfl]
    | some v =>
        rw [hlv] at hargs
        cases v with
        | str s =>
            simp only [WFArguments] at hargs
            rcases hargs with ⟨rfl, rfl⟩ | ⟨hs, hl⟩
            · simp
            · simp [hs, hl]
        | null => simp only [WFArguments] at hargs; subst hargs; simp
        | bool b => simp only [WFArguments] at hargs; subst hargs; simp
        | num n => simp only [WFArguments] at hargs; subst hargs; simp
        | arr xs => simp only [WFArguments] at hargs; subst hargs; simp
        | obj okvs => simp only [WFArguments] at hargs; subst hargs; simp
  · refine ⟨pyGet kvs "id", ?_⟩
    have hcond : (pyEqStr (pyGet kvs "type") "function" &&
        (lookup kvs "function").isSome) = false := by
      by_cases h1 : pyEqStr (pyGet kvs "type") "function" = true
      · by_cases h2 : (lookup kvs "function").isSome = true
        · exact absurd ⟨h1, h2⟩ hnotA
        · simp only [Bool.not_eq_true] at h2
          simp [h2]
      · simp only [Bool.not_eq_true] at h1
        simp [h1]
    have hnmv : pyGet kvs "name" = .str nm := by simp [pyGet, hnm]
    simp only [parseSingleNativeCall, hcond, Bool.false_eq_true, if_false, hnm,
      Option.isSome_some, if_true, hnmv]
    cases hlv : lookup kvs "arguments" with
    | none =>
        rw [hlv] at hargs
        simp only [WFArguments] at hargs
        subst hargs
        simp
    | some v =>
        rw [hlv] at hargs
        cases v with
        | str s =>
            simp only [WFArguments] at hargs
            rcases hargs with ⟨rfl, rfl⟩ | ⟨hs, hl⟩
            · simp
            · simp [hs, hl]
        | null => simp only [WFArguments] at hargs; subst hargs; simp
        | bool b => simp only [WFArguments] at hargs; subst hargs; simp
        | num n => simp only [WFArguments] at hargs; subst hargs; simp
        | arr xs => simp only [WFArguments] at hargs; subst hargs; simp
        | obj okvs => simp only [WFArguments] at hargs; subst hargs; simp

theorem normalize_arr (rs : List JVal) :
    normalize_tool_calls (.arr rs) = rs.filterMap parseSingleNativeCall := by
  cases rs <;> simp [normalize_tool_calls, JVal.falsy]

theorem recordName_toNativeOne (call : NormalizedToolCall) :
    recordName (toNativeOne call) = call.tool_name := by
  simp [recordName, toNativeOne, pyGet, lookup, List.find?]

theorem recordArgs_toNativeOne (call : NormalizedToolCall)
    (hwf : pyWF call.parameters = true) :
    recordArgs (toNativeOne call) = some call.parameters := by
  simp [recordArgs, toNativeOne, pyGet, lookup, List.find?,
    jsonLoads_jsonDumps call.parameters hwf]


/-! ## Lemmas about the XML scanners (for C3 and C4) -/

/-- Occurrence test: the pattern is a prefix of some nonempty suffix. -/
def hasSub (pat : List Char) : List Char → Bool
  | [] => false
  | c :: r => (stripLit pat (c :: r)).isSome || hasSub pat r

/-- One `<parameter name="k">txt</parameter>` piece as rendered and as
matched. -/
def mkParamPiece (k txt : List Char) : List Char :=
  "<parameter name=\"".data ++ k ++ '"' :: '>' :: txt ++ "</parameter>".data

/-- One `<function_calls>` block holding a single invoke, with arbitrary
whitespace paddings around the invoke element. -/
def mkInvokeBlock (ws1 nm body ws2 : List Char) : List Char :=
  "<function_calls>".data ++ ws1 ++ "<invoke name=\"".data ++ nm ++
    '"' :: '>' :: body ++ "</invoke>".data ++ ws2 ++ "</function_calls>".data

theorem stripLit_isSome_iff (pat s : List Char) :
    (stripLit pat s).isSome = true ↔ pat <+: s := by
  induction pat generalizing s with
  | nil => simp [stripLit]
  | cons l ls ih =>
      cases s with
      | nil => simp [stripLit]
      | cons c cs =>
          by_cases h : c = l
          · subst h
            simp [stripLit, ih, List.cons_prefix_cons]
          · simp only [stripLit, if_neg h, List.cons_prefix_cons]
            simp only [Option.isSome_none, Bool.false_eq_true, false_iff, not_and]
            exact fun hh => absurd hh.symm h

/-- A pattern that starts with `<` and has no other `<` cannot match
where a nonempty remainder of hazard-free text is followed by a `<`:
either the text diverges from the pattern, or the pattern runs into the
following `<` at a non-initial position. -/
theorem stripLit_no_lt_span (pat2 : List Char) (hlt : '<' ∉ pat2) :
    ∀ (P X : List Char), ¬ pat2 <+: P → stripLit pat2 (P ++ '<' :: X) = none := by
  induction pat2 with
  | nil => intro P X hnp; exact absurd List.nil_prefix hnp
  | cons d pat' ih =>
      intro P X hnp
      cases P with
      | nil =>
          have hd : ¬('<' : Char) = d := fun h => hlt (h ▸ List.mem_cons_self _ _)
          simp [stripLit, hd]
      | cons e P' =>
          by_cases he : e = d
          · subst he
            simp only [List.cons_append, stripLit, if_pos rfl]
            exact ih (fun h => hlt (List.mem_cons_of_mem _ h)) P' X
              (fun hp => hnp (List.cons_prefix_cons.mpr ⟨rfl, hp⟩))
          · simp [stripLit, he]

theorem stripLit_span_fail (pat2 : List Char) (hlt : '<' ∉ pat2)
    (P X : List Char) (hne : P ≠ []) (hnp : ¬ ('<' :: pat2) <+: P) :
    stripLit ('<' :: pat2) (P ++ '<' :: X) = none := by
  cases P with
  | nil => exact absurd rfl hne
  | cons e P' =>
      by_cases he : e = '<'
      · subst he
        simp only [List.cons_append, stripLit, if_pos rfl]
        exact stripLit_no_lt_span pat2 hlt P' X
          (fun hp => hnp (List.cons_prefix_cons.mpr ⟨rfl, hp⟩))
      · simp [stripLit, he]


theorem hasSub_cons_false {pat : List Char} {c : Char} {r : List Char}
    (h : hasSub pat (c :: r) = false) :
    (stripLit pat (c :: r)).isSome = false ∧ hasSub pat r = false := by
  simpa [hasSub, Bool.or_eq_false_iff] using h

theorem paramBody_boundary (txt : List Char)
    (hfree : hasSub "</parameter>".data txt = false) :
    ∀ rest, paramBody (txt ++ "</parameter>".data ++ rest) = some (txt, rest) := by
  induction txt with
  | nil =>
      intro rest
      show paramBody ('<' :: ("/parameter>".data ++ rest)) = some ([], rest)
      rw [paramBody]
      simp [stripLit]
  | cons c txt' ih =>
      intro rest
      obtain ⟨h0, h1⟩ := hasSub_cons_false hfree
      have hnp : ¬ "</parameter>".data <+: (c :: txt') := by
        rw [← stripLit_isSome_iff]
        simp [h0]
      have hfail : stripLit "</parameter>".data
          ((c :: txt') ++ '<' :: ("/parameter>".data ++ rest)) = none := by
        exact stripLit_span_fail "/parameter>".data (by decide) (c :: txt') _
          (by simp) hnp
      have hfail2 : stripLit "</parameter>".data
          (c :: (txt' ++ "</parameter>".data ++ rest)) = none := by
        rw [show c :: (txt' ++ "</parameter>".data ++ rest) =
              (c :: txt') ++ '<' :: ("/parameter>".data ++ rest) from by simp]
        exact hfail
      show paramBody (c :: (txt' ++ "</parameter>".data ++ rest)) = _
      rw [paramBody, hfail2, ih h1 rest]
      rfl


theorem takeWhile_append_all {p : Char → Bool} (l X : List Char)
    (h : ∀ c ∈ l, p c = true) :
    (l ++ X).takeWhile p = l ++ X.takeWhile p := by
  induction l with
  | nil => rfl
  | cons c t ih =>
      simp only [List.cons_append, List.takeWhile_cons, h c (by simp), if_true]
      rw [ih (fun d hd => h d (by simp [hd]))]

theorem dropWhile_append_all {p : Char → Bool} (l X : List Char)
    (h : ∀ c ∈ l, p c = true) :
    (l ++ X).dropWhile p = X.dropWhile p := by
  induction l with
  | nil => rfl
  | cons c t ih =>
      simp only [List.cons_append, List.dropWhile_cons, h c (by simp), if_true]
      exact ih (fun d hd => h d (by simp [hd]))

theorem matchParamAt_mk (k txt rest : List Char) (hk : k ≠ [])
    (hkq : ∀ c ∈ k, (!(decide (c = '"') || decide (c = '\''))) = true)
    (hfree : hasSub "</parameter>".data txt = false) :
    matchParamAt (mkParamPiece k txt ++ rest) = some (String.mk k, txt, rest) := by
  rw [show mkParamPiece k txt ++ rest =
        "<parameter".data ++ (' ' :: ("name=".data ++ ('"' :: (k ++ '"' :: '>' ::
          (txt ++ "</parameter>".data ++ rest))))) from by simp [mkParamPiece]]
  unfold matchParamAt
  rw [show stripLit "<parameter".data ("<parameter".data ++ (' ' :: ("name=".data ++
        ('"' :: (k ++ '"' :: '>' :: (txt ++ "</parameter>".data ++ rest)))))) =
      some (' ' :: ("name=".data ++ ('"' :: (k ++ '"' :: '>' ::
        (txt ++ "</parameter>".data ++ rest))))) from by simp [stripLit]]
  simp only [Bind.bind, Option.bind]
  simp only [show isPyWs ' ' = true from rfl, if_true, List.cons_append,
    List.dropWhile_cons, show isPyWs 'n' = false from rfl, Bool.false_eq_true,
    if_false, List.nil_append]
  rw [show stripLit ['n', 'a', 'm', 'e', '=']
        ('n' :: 'a' :: 'm' :: 'e' :: '=' :: '"' ::
          (k ++ '"' :: '>' :: (txt ++ "</parameter>".data ++ rest))) =
      some ('"' :: (k ++ '"' :: '>' :: (txt ++ "</parameter>".data ++ rest)))
      from by simp [stripLit]]
  dsimp only
  rw [takeWhile_append_all k _ hkq, dropWhile_append_all k _ hkq]
  simp only [List.takeWhile_cons, List.dropWhile_cons]
  simp [stripLit, List.isEmpty_iff, hk]
  rw [show txt ++ '<' :: '/' :: 'p' :: 'a' :: 'r' :: 'a' :: 'm' :: 'e' :: 't' ::
        'e' :: 'r' :: '>' :: rest = txt ++ "</parameter>".data ++ rest from by
      simp, paramBody_boundary txt hfree rest]


theorem stripLit_self_append (p X : List Char) : stripLit p (p ++ X) = some X := by
  induction p with
  | nil => simp [stripLit]
  | cons c t ih => simp [stripLit, ih]

theorem invokeBody_boundary (body ws2 : List Char)
    (hfree : hasSub "</invoke>".data body = false)
    (hws : ∀ c ∈ ws2, isPyWs c = true) :
    ∀ rest, invokeBody (body ++ "</invoke>".data ++ ws2 ++
      "</function_calls>".data ++ rest) = some (body, rest) := by
  induction body with
  | nil =>
      intro rest
      rw [show ([] : List Char) ++ "</invoke>".data ++ ws2 ++
            "</function_calls>".data ++ rest =
          '<' :: ("/invoke>".data ++ (ws2 ++ ("</function_calls>".data ++ rest)))
          from by simp]
      rw [invokeBody]
      rw [show stripLit "</invoke>".data
            ('<' :: ("/invoke>".data ++ (ws2 ++ ("</function_calls>".data ++ rest)))) =
          some (ws2 ++ ("</function_calls>".data ++ rest)) from by simp [stripLit]]
      simp only [Option.some_bind]
      rw [dropWhile_append_all ws2 _ hws]
      rw [show stripLit "</function_calls>".data
            (List.dropWhile isPyWs ("</function_calls>".data ++ rest)) = some rest
          from by simp [stripLit, isPyWs]]
  | cons c body' ih =>
      intro rest
      obtain ⟨h0, h1⟩ := hasSub_cons_false hfree
      have hnp : ¬ "</invoke>".data <+: (c :: body') := by
        rw [← stripLit_isSome_iff]
        simp [h0]
      have hfail2 : stripLit "</invoke>".data
          (c :: (body' ++ "</invoke>".data ++ ws2 ++
            "</function_calls>".data ++ rest)) = none := by
        rw [show c :: (body' ++ "</invoke>".data ++ ws2 ++
              "</function_calls>".data ++ rest) =
            (c :: body') ++ '<' :: ("/invoke>".data ++ ws2 ++
              "</function_calls>".data ++ rest) from by simp]
        exact stripLit_span_fail "/invoke>".data (by decide) (c :: body') _
          (by simp) hnp
      show invokeBody (c :: (body' ++ "</invoke>".data ++ ws2 ++
        "</function_calls>".data ++ rest)) = _
      rw [invokeBody, hfail2]
      simp only [Option.none_bind]
      rw [ih h1 rest]
      rfl


theorem matchInvokeAt_mk (ws1 nm body ws2 rest : List Char)
    (hws1 : ∀ c ∈ ws1, isPyWs c = true)
    (hnm : nm ≠ [])
    (hnmq : ∀ c ∈ nm, (!(decide (c = '"') || decide (c = '\''))) = true)
    (hbody : hasSub "</invoke>".data body = false)
    (hws2 : ∀ c ∈ ws2, isPyWs c = true) :
    matchInvokeAt (mkInvokeBlock ws1 nm body ws2 ++ rest) =
      some (String.mk nm, body, rest) := by
  rw [show mkInvokeBlock ws1 nm body ws2 ++ rest =
        "<function_calls>".data ++ (ws1 ++ ('<' :: ("invoke".data ++ (' ' ::
          ("name=".data ++ ('"' :: (nm ++ '"' :: '>' ::
            (body ++ "</invoke>".data ++ (ws2 ++
              ("</function_calls>".data ++ rest)))))))))) from by
      simp [mkInvokeBlock]]
  unfold matchInvokeAt
  rw [stripLit_self_append]
  simp only [Bind.bind, Option.bind]
  rw [dropWhile_append_all ws1 _ hws1]
  simp only [List.dropWhile_cons, show isPyWs '<' = false from rfl,
    Bool.false_eq_true, if_false]
  rw [show stripLit "<invoke".data ('<' :: ("invoke".data ++ (' ' ::
        ("name=".data ++ ('"' :: (nm ++ '"' :: '>' ::
          (body ++ "</invoke>".data ++ (ws2 ++
            ("</function_calls>".data ++ rest))))))))) =
      some (' ' :: ("name=".data ++ ('"' :: (nm ++ '"' :: '>' ::
        (body ++ "</invoke>".data ++ (ws2 ++
          ("</function_calls>".data ++ rest))))))) from by simp [stripLit]]
  simp only [show isPyWs ' ' = true from rfl, if_true, List.cons_append,
    List.dropWhile_cons, show isPyWs 'n' = false from rfl, Bool.false_eq_true,
    if_false, List.nil_append]
  rw [show stripLit ['n', 'a', 'm', 'e', '=']
        ('n' :: 'a' :: 'm' :: 'e' :: '=' :: '"' :: (nm ++ '"' :: '>' ::
          (body ++ ['<', '/', 'i', 'n', 'v', 'o', 'k', 'e', '>'] ++ (ws2 ++
            '<' :: '/' :: 'f' :: 'u' :: 'n' :: 'c' :: 't' :: 'i' :: 'o' ::
              'n' :: '_' :: 'c' :: 'a' :: 'l' :: 'l' :: 's' :: '>' :: rest)))) =
      some ('"' :: (nm ++ '"' :: '>' ::
        (body ++ ['<', '/', 'i', 'n', 'v', 'o', 'k', 'e', '>'] ++ (ws2 ++
          '<' :: '/' :: 'f' :: 'u' :: 'n' :: 'c' :: 't' :: 'i' :: 'o' ::
            'n' :: '_' :: 'c' :: 'a' :: 'l' :: 'l' :: 's' :: '>' :: rest))))
      from by simp [stripLit]]
  dsimp only
  rw [takeWhile_append_all nm _ hnmq, dropWhile_append_all nm _ hnmq]
  simp only [List.takeWhile_cons, List.dropWhile_cons]
  simp [stripLit, List.isEmpty_iff, hnm]
  rw [show body ++ '<' :: '/' :: 'i' :: 'n' :: 'v' :: 'o' :: 'k' :: 'e' :: '>' ::
        (ws2 ++ ('<' :: '/' :: 'f' :: 'u' :: 'n' :: 'c' :: 't' :: 'i' :: 'o' ::
          'n' :: '_' :: 'c' :: 'a' :: 'l' :: 'l' :: 's' :: '>' :: rest)) =
      body ++ "</invoke>".data ++ ws2 ++ "</function_calls>".data ++ rest from by
    simp, invokeBody_boundary body ws2 hbody hws2 rest]


theorem matchParamAt_not_lt {c : Char} (Y : List Char) (hc : ¬ c = '<') :
    matchParamAt (c :: Y) = none := by
  unfold matchParamAt
  rw [show stripLit "<parameter".data (c :: Y) = none from by simp [stripLit, hc]]
  rfl

theorem matchInvokeAt_not_lt {c : Char} (Y : List Char) (hc : ¬ c = '<') :
    matchInvokeAt (c :: Y) = none := by
  unfold matchInvokeAt
  rw [show stripLit "<function_calls>".data (c :: Y) = none from by
    simp [stripLit, hc]]
  rfl

theorem xmlFindParams_all_not_lt (l : List Char) (h : ∀ c ∈ l, ¬ c = '<') :
    ∀ fuel, xmlFindParams fuel l = [] := by
  induction l with
  | nil => intro fuel; cases fuel <;> rfl
  | cons c t ih =>
      intro fuel
      cases fuel with
      | zero => rfl
      | succ f =>
          rw [xmlFindParams, matchParamAt_not_lt t (h c (by simp))]
          exact ih (fun d hd => h d (by simp [hd])) f

theorem xmlFindCalls_all_not_lt (l : List Char) (h : ∀ c ∈ l, ¬ c = '<') :
    ∀ fuel, xmlFindCalls fuel l = [] := by
  induction l with
  | nil => intro fuel; cases fuel <;> rfl
  | cons c t ih =>
      intro fuel
      cases fuel with
      | zero => rfl
      | succ f =>
          rw [xmlFindCalls, matchInvokeAt_not_lt t (h c (by simp))]
          exact ih (fun d hd => h d (by simp [hd])) f

theorem xmlFindParams_skip (f : List Char) (hf : ∀ c ∈ f, ¬ c = '<') :
    ∀ fuel X, xmlFindParams (f.length + fuel) (f ++ X) = xmlFindParams fuel X := by
  induction f with
  | nil => intro fuel X; simp
  | cons c t ih =>
      intro fuel X
      rw [show (c :: t).length + fuel = (t.length + fuel) + 1 from by
        simp [Nat.succ_add]]
      rw [show (c :: t) ++ X = c :: (t ++ X) from rfl]
      rw [xmlFindParams, matchParamAt_not_lt (t ++ X) (hf c (by simp))]
      exact ih (fun d hd => hf d (by simp [hd])) fuel X

theorem xmlFindCalls_skip (f : List Char) (hf : ∀ c ∈ f, ¬ c = '<') :
    ∀ fuel X, xmlFindCalls (f.length + fuel) (f ++ X) = xmlFindCalls fuel X := by
  induction f with
  | nil => intro fuel X; simp
  | cons c t ih =>
      intro fuel X
      rw [show (c :: t).length + fuel = (t.length + fuel) + 1 from by
        simp [Nat.succ_add]]
      rw [show (c :: t) ++ X = c :: (t ++ X) from rfl]
      rw [xmlFindCalls, matchInvokeAt_not_lt (t ++ X) (hf c (by simp))]
      exact ih (fun d hd => hf d (by simp [hd])) fuel X

theorem xmlFindParams_hit (fuel : Nat) (s : List Char) (nm : String)
    (body rest : List Char) (hs : s ≠ [])
    (hm : matchParamAt s = some (nm, body, rest)) :
    xmlFindParams (fuel + 1) s = (nm, body) :: xmlFindParams fuel rest := by
  cases s with
  | nil => exact absurd rfl hs
  | cons c t => rw [xmlFindParams, hm]

theorem xmlFindCalls_hit (fuel : Nat) (blk rest : List Char) (nm : String)
    (body : List Char) (hblk : blk ≠ [])
    (hm : matchInvokeAt (blk ++ rest) = some (nm, body, rest)) :
    xmlFindCalls (fuel + 1) (blk ++ rest) =
      (nm, body, blk) :: xmlFindCalls fuel rest := by
  cases hb : blk with
  | nil => exact absurd hb hblk
  | cons c t =>
      subst hb
      rw [show (c :: t) ++ rest = c :: (t ++ rest) from rfl]
      rw [xmlFindCalls]
      rw [show c :: (t ++ rest) = (c :: t) ++ rest from rfl, hm]
      dsimp only
      rw [show ((c :: t) ++ rest).length - rest.length = (c :: t).length from by
        simp only [List.length_append, List.length_cons]
        omega]
      rw [List.take_left]

/-- A parameter piece with its surrounding filler: filler text (no `<`),
attribute name, raw textual value. -/
abbrev ParamSpecWF (e : List Char × List Char × List Char) : Prop :=
  (∀ c ∈ e.1, ¬ c = '<') ∧ e.2.1 ≠ [] ∧
    (∀ c ∈ e.2.1, (!(decide (c = '"') || decide (c = '\''))) = true) ∧
    hasSub "</parameter>".data e.2.2 = false

/-- The body text assembled from filler-separated parameter pieces. -/
def paramConcat : List (List Char × List Char × List Char) → List Char → List Char
  | [], ftail => ftail
  | e :: r, ftail => e.1 ++ mkParamPiece e.2.1 e.2.2 ++ paramConcat r ftail

theorem mkParamPiece_cons (k txt : List Char) :
    mkParamPiece k txt = '<' :: ("parameter name=\"".data ++ k ++ '"' :: '>' ::
      txt ++ "</parameter>".data) := by
  simp [mkParamPiece]

theorem xmlFindParams_paramConcat
    (ps : List (List Char × List Char × List Char)) (ftail : List Char)
    (hps : ∀ e ∈ ps, ParamSpecWF e) (hft : ∀ c ∈ ftail, ¬ c = '<') :
    ∀ fuel, (paramConcat ps ftail).length < fuel →
      xmlFindParams fuel (paramConcat ps ftail) =
        ps.map (fun e => (String.mk e.2.1, e.2.2)) := by
  induction ps with
  | nil =>
      intro fuel _
      exact xmlFindParams_all_not_lt ftail hft fuel
  | cons e r ih =>
      intro fuel hfuel
      obtain ⟨hf, hk, hkq, htxt⟩ := hps e (by simp)
      have hlen : (paramConcat (e :: r) ftail).length =
          e.1.length + ((mkParamPiece e.2.1 e.2.2 ++ paramConcat r ftail).length) := by
        show (e.1 ++ mkParamPiece e.2.1 e.2.2 ++ paramConcat r ftail).length = _
        simp
      have hfe : e.1.length + ((mkParamPiece e.2.1 e.2.2 ++
          paramConcat r ftail).length) < fuel := by
        rw [← hlen]; exact hfuel
      have hsplit : fuel = e.1.length + (fuel - e.1.length) := by omega
      rw [show paramConcat (e :: r) ftail =
            e.1 ++ (mkParamPiece e.2.1 e.2.2 ++ paramConcat r ftail) from by
        show e.1 ++ mkParamPiece e.2.1 e.2.2 ++ paramConcat r ftail = _
        simp]
      rw [hsplit, xmlFindParams_skip e.1 hf]
      have hpos : 0 < (mkParamPiece e.2.1 e.2.2).length := by
        rw [mkParamPiece_cons]; simp
      obtain ⟨f2, hf2⟩ : ∃ f2, fuel - e.1.length = f2 + 1 := by
        refine ⟨fuel - e.1.length - 1, ?_⟩
        have : 0 < fuel - e.1.length := by
          have := (mkParamPiece e.2.1 e.2.2 ++ paramConcat r ftail).length
          simp at hfe ⊢
          omega
        omega
      rw [hf2]
      rw [xmlFindParams_hit f2 _ (String.mk e.2.1) e.2.2 (paramConcat r ftail)
        (by rw [mkParamPiece_cons]; simp)
        (matchParamAt_mk e.2.1 e.2.2 (paramConcat r ftail) hk hkq htxt)]
      rw [ih (fun d hd => hps d (by simp [hd])) f2 (by
        have : (mkParamPiece e.2.1 e.2.2 ++ paramConcat r ftail).length =
            (mkParamPiece e.2.1 e.2.2).length + (paramConcat r ftail).length := by
          simp
        omega)]
      rfl


/-- One well-formed `<function_calls>` container holding a single invoke:
leading filler text, inner whitespace paddings, the invoke name, the
filler-separated parameter pieces of the body, and trailing body
filler. -/
structure InvokeSpec where
  gap : List Char
  ws1 : List Char
  nm : List Char
  params : List (List Char × List Char × List Char)
  ptail : List Char
  ws2 : List Char

/-- The rendered body of an InvokeSpec. -/
def InvokeSpec.body (e : InvokeSpec) : List Char := paramConcat e.params e.ptail

/-- The rendered `<function_calls>…</function_calls>` block of an
InvokeSpec. -/
def InvokeSpec.block (e : InvokeSpec) : List Char :=
  mkInvokeBlock e.ws1 e.nm e.body e.ws2

/-- Hygiene conditions under which the committed scanner provably matches
the rendered block: no stray `<` in fillers, whitespace paddings really
are whitespace, a nonempty quote-free name, well-formed parameter pieces
and a close-tag-free body. -/
abbrev InvokeSpecWF (e : InvokeSpec) : Prop :=
  (∀ c ∈ e.gap, ¬ c = '<') ∧ (∀ c ∈ e.ws1, isPyWs c = true) ∧ e.nm ≠ [] ∧
    (∀ c ∈ e.nm, (!(decide (c = '"') || decide (c = '\''))) = true) ∧
    (∀ p ∈ e.params, ParamSpecWF p) ∧ (∀ c ∈ e.ptail, ¬ c = '<') ∧
    hasSub "</invoke>".data e.body = false ∧
    (∀ c ∈ e.ws2, isPyWs c = true)

/-- A full model transcript: container blocks with filler text around
them. -/
def invokeConcat : List InvokeSpec → List Char → List Char
  | [], gtail => gtail
  | e :: r, gtail => e.gap ++ e.block ++ invokeConcat r gtail

theorem mkInvokeBlock_cons (ws1 nm body ws2 : List Char) :
    mkInvokeBlock ws1 nm body ws2 = '<' :: ("function_calls>".data ++ ws1 ++
      "<invoke name=\"".data ++ nm ++ '"' :: '>' :: body ++ "</invoke>".data ++
      ws2 ++ "</function_calls>".data) := by
  simp [mkInvokeBlock]

theorem xmlFindCalls_invokeConcat (l : List InvokeSpec) (gtail : List Char)
    (hl : ∀ e ∈ l, InvokeSpecWF e) (hgt : ∀ c ∈ gtail, ¬ c = '<') :
    ∀ fuel, (invokeConcat l gtail).length < fuel →
      xmlFindCalls fuel (invokeConcat l gtail) =
        l.map (fun e => (String.mk e.nm, e.body, e.block)) := by
  induction l with
  | nil =>
      intro fuel _
      exact xmlFindCalls_all_not_lt gtail hgt fuel
  | cons e r ih =>
      intro fuel hfuel
      obtain ⟨hgap, hws1, hnm, hnmq, _, _, hbody, hws2⟩ := hl e (by simp)
      have hlen : (invokeConcat (e :: r) gtail).length =
          e.gap.length + ((e.block ++ invokeConcat r gtail).length) := by
        show (e.gap ++ e.block ++ invokeConcat r gtail).length = _
        simp
      have hfe : e.gap.length + ((e.block ++ invokeConcat r gtail).length) <
          fuel := by
        rw [← hlen]; exact hfuel
      have hsplit : fuel = e.gap.length + (fuel - e.gap.length) := by omega
      rw [show invokeConcat (e :: r) gtail =
            e.gap ++ (e.block ++ invokeConcat r gtail) from by
        show e.gap ++ e.block ++ invokeConcat r gtail = _
        simp]
      rw [hsplit, xmlFindCalls_skip e.gap hgap]
      have hpos : 0 < e.block.length := by
        show 0 < (mkInvokeBlock e.ws1 e.nm e.body e.ws2).length
        rw [mkInvokeBlock_cons]; simp
      obtain ⟨f2, hf2⟩ : ∃ f2, fuel - e.gap.length = f2 + 1 := by
        refine ⟨fuel - e.gap.length - 1, ?_⟩
        have h1 : (e.block ++ invokeConcat r gtail).length =
            e.block.length + (invokeConcat r gtail).length := by simp
        omega
      rw [hf2]
      rw [xmlFindCalls_hit f2 e.block (invokeConcat r gtail) (String.mk e.nm)
        e.body
        (by
          show mkInvokeBlock e.ws1 e.nm e.body e.ws2 ≠ []
          rw [mkInvokeBlock_cons]; simp)
        (matchInvokeAt_mk e.ws1 e.nm e.body e.ws2 (invokeConcat r gtail)
          hws1 hnm hnmq hbody hws2)]
      rw [ih (fun d hd => hl d (by simp [hd])) f2 (by
        have h1 : (e.block ++ invokeConcat r gtail).length =
            e.block.length + (invokeConcat r gtail).length := by simp
        omega)]
      rfl

theorem parseXmlToolCalls_invokeConcat (l : List InvokeSpec) (gtail : List Char)
    (hl : ∀ e ∈ l, InvokeSpecWF e) (hgt : ∀ c ∈ gtail, ¬ c = '<') :
    parseXmlToolCalls (String.mk (invokeConcat l gtail)) =
      l.map (fun e =>
        { tool_name := .str (String.mk e.nm),
          parameters := .obj (e.params.foldl (fun acc p =>
            dictInsert acc (String.mk p.2.1) (xmlParamValue p.2.2)) []),
          call_id := .null, source_format := .xml,
          raw_call := .str (String.mk e.block) }) := by
  unfold parseXmlToolCalls
  rw [show (String.mk (invokeConcat l gtail)).data = invokeConcat l gtail
      from rfl]
  rw [xmlFindCalls_invokeConcat l gtail hl hgt _ (by omega)]
  rw [List.map_map]
  refine List.map_congr_left ?_
  intro e he
  obtain ⟨_, _, _, _, hps, hpt, _, _⟩ := hl e he
  show (⟨.str (String.mk e.nm),
      .obj ((xmlFindParams (e.body.length + 1) e.body).foldl
        (fun acc p => dictInsert acc p.1 (xmlParamValue p.2)) []),
      .null, .xml, .str (String.mk e.block)⟩ : NormalizedToolCall) = _
  rw [show e.body = paramConcat e.params e.ptail from rfl]
  rw [xmlFindParams_paramConcat e.params e.ptail hps hpt _ (by omega)]
  rw [List.foldl_map]

theorem normalize_invokeConcat (l : List InvokeSpec) (gtail : List Char)
    (hl : ∀ e ∈ l, InvokeSpecWF e) (hgt : ∀ c ∈ gtail, ¬ c = '<') :
    normalize_tool_calls (.str (String.mk (invokeConcat l gtail))) =
      l.map (fun e =>
        { tool_name := .str (String.mk e.nm),
          parameters := .obj (e.params.foldl (fun acc p =>
            dictInsert acc (String.mk p.2.1) (xmlParamValue p.2.2)) []),
          call_id := .null, source_format := .xml,
          raw_call := .str (String.mk e.block) }) := by
  by_cases h : invokeConcat l gtail = []
  · have hl0 : l = [] := by
      cases l with
      | nil => rfl
      | cons e r =>
          exfalso
          have : invokeConcat (e :: r) gtail =
              e.gap ++ e.block ++ invokeConcat r gtail := rfl
          rw [this] at h
          have hpos : 0 < e.block.length := by
            show 0 < (mkInvokeBlock e.ws1 e.nm e.body e.ws2).length
            rw [mkInvokeBlock_cons]; simp
          have hlen := congrArg List.length h
          simp only [List.length_append, List.length_nil] at hlen
          omega
    subst hl0
    rw [show invokeConcat [] gtail = gtail from rfl] at h ⊢
    subst h
    rfl
  · rw [show normalize_tool_calls (.str (String.mk (invokeConcat l gtail))) =
        parseXmlToolCalls (String.mk (invokeConcat l gtail)) from by
      unfold normalize_tool_calls
      rw [if_neg (by
        simp [JVal.falsy]
        intro hcon
        exact h (by
          have := congrArg String.data hcon
          simpa using this))]]
    exact parseXmlToolCalls_invokeConcat l gtail hl hgt


theorem digitChar_not_pyws : ∀ d, d < 10 → isPyWs (digitChar d) = false := by
  decide

theorem natToChars_rev (n : Nat) :
    ∃ d t, d < 10 ∧ (natToChars n).reverse = digitChar d :: t := by
  rw [natToChars]
  by_cases h : n < 10
  · exact ⟨n, [], h, by rw [dif_pos h]; rfl⟩
  · refine ⟨n % 10, (natToChars (n / 10)).reverse, by omega, ?_⟩
    rw [dif_neg h]
    simp

theorem dumpVal_head_pyws (v : JVal) :
    ∃ c t, dumpVal v = c :: t ∧ isPyWs c = false := by
  cases v with
  | null => exact ⟨'n', _, rfl, by decide⟩
  | bool b => cases b with
      | true => exact ⟨'t', _, rfl, by decide⟩
      | false => exact ⟨'f', _, rfl, by decide⟩
  | num i =>
      show ∃ c t, intToChars i = c :: t ∧ _
      by_cases hi : i < 0
      · exact ⟨'-', natToChars i.natAbs, by simp [intToChars, hi], by decide⟩
      · obtain ⟨d, t, hd, hrep, _⟩ := natToChars_head i.natAbs
        exact ⟨digitChar d, t, by simp [intToChars, hi, hrep],
          digitChar_not_pyws d hd⟩
  | str s => exact ⟨'"', _, rfl, by decide⟩
  | arr xs => exact ⟨'[', _, rfl, by decide⟩
  | obj kvs => exact ⟨'{', _, rfl, by decide⟩

theorem dumpVal_rev_head (v : JVal) :
    ∃ c t, (dumpVal v).reverse = c :: t ∧ isPyWs c = false := by
  cases v with
  | null => exact ⟨'l', _, by rfl, by decide⟩
  | bool b => cases b with
      | true => exact ⟨'e', _, by rfl, by decide⟩
      | false => exact ⟨'e', _, by rfl, by decide⟩
  | num i =>
      show ∃ c t, (intToChars i).reverse = c :: t ∧ _
      obtain ⟨d, t, hd, hrev⟩ := natToChars_rev i.natAbs
      by_cases hi : i < 0
      · refine ⟨digitChar d, t ++ ['-'], ?_, digitChar_not_pyws d hd⟩
        rw [intToChars, if_pos hi]
        simp [hrev]
      · refine ⟨digitChar d, t, ?_, digitChar_not_pyws d hd⟩
        rw [intToChars, if_neg hi]
        exact hrev
  | str s =>
      refine ⟨'"', (escStr s.data).reverse ++ ['"'], ?_, by decide⟩
      show ('"' :: escStr s.data ++ ['"']).reverse = _
      simp
  | arr xs =>
      refine ⟨']', (dumpElems xs).reverse ++ ['['], ?_, by decide⟩
      show ('[' :: dumpElems xs ++ [']']).reverse = _
      simp
  | obj kvs =>
      refine ⟨'}', (dumpMembers kvs).reverse ++ ['{'], ?_, by decide⟩
      show ('{' :: dumpMembers kvs ++ ['}']).reverse = _
      simp

theorem pyStrip_dumpVal (v : JVal) : pyStrip (dumpVal v) = dumpVal v := by
  obtain ⟨c, t, hh, hcw⟩ := dumpVal_head_pyws v
  obtain ⟨c2, t2, hr, hcw2⟩ := dumpVal_rev_head v
  unfold pyStrip
  rw [hh, List.dropWhile_cons, hcw]
  simp only [Bool.false_eq_true, if_false]
  rw [← hh, hr, List.dropWhile_cons, hcw2]
  simp only [Bool.false_eq_true, if_false]
  rw [← hr, List.reverse_reverse]

theorem xmlParamValue_dumpVal (v : JVal) (hwf : pyWF v = true) :
    xmlParamValue (dumpVal v) = v := by
  unfold xmlParamValue
  rw [pyStrip_dumpVal]
  show (match jsonLoads (jsonDumps v) with
        | some w => w
        | none => JVal.str (jsonDumps v)) = v
  rw [jsonLoads_jsonDumps v hwf]

/-- The parameter values to_xml_format renders as (re-parseable) JSON
text: numbers through `str()`, dicts and lists through `json.dumps`. -/
def jsonParamVal : JVal → Bool
  | .num _ => true
  | .arr _ => true
  | .obj _ => true
  | _ => false

theorem xmlParamLine_data (k : String) (v : JVal)
    (hv : jsonParamVal v = true) :
    (xmlParamLine k v).data = mkParamPiece k.data (dumpVal v) := by
  cases v with
  | num n =>
      show ("<parameter name=\"" ++ k ++ "\">" ++ String.mk (intToChars n) ++
        "</parameter>").data = _
      simp [String.data_append, mkParamPiece]
      rw [dumpVal]
  | arr xs =>
      show ("<parameter name=\"" ++ k ++ "\">" ++ jsonDumps (.arr xs) ++
        "</parameter>").data = _
      simp [String.data_append, mkParamPiece, jsonDumps]
  | obj kvs =>
      show ("<parameter name=\"" ++ k ++ "\">" ++ jsonDumps (.obj kvs) ++
        "</parameter>").data = _
      simp [String.data_append, mkParamPiece, jsonDumps]
  | null => simp [jsonParamVal] at hv
  | bool b => simp [jsonParamVal] at hv
  | str s => simp [jsonParamVal] at hv

theorem intercalate_cons_data (a : String) (l : List String) :
    (String.intercalate "\n" (a :: l)).data =
      a.data ++ (l.map (fun b => '\n' :: b.data)).flatten := by
  induction l generalizing a with
  | nil =>
      rw [show String.intercalate "\n" [a] = a from rfl]
      simp
  | cons b bs ih =>
      rw [show String.intercalate "\n" (a :: b :: bs) =
            String.intercalate "\n" ((a ++ "\n" ++ b) :: bs) from rfl]
      rw [ih (a ++ "\n" ++ b)]
      simp [String.data_append]


theorem paramLines_chars (kvs : List (String × JVal))
    (hv : ∀ p ∈ kvs, jsonParamVal p.2 = true) (Z : List Char) :
    ((kvs.map (fun p => xmlParamLine p.1 p.2)).map
        (fun b => '\n' :: b.data)).flatten ++ '\n' :: Z =
      paramConcat (kvs.map (fun p => (['\n'], p.1.data, dumpVal p.2))) ['\n']
        ++ Z := by
  induction kvs with
  | nil => rfl
  | cons p r ih =>
      simp only [List.map_cons, List.flatten_cons, List.append_assoc,
        List.cons_append]
      rw [xmlParamLine_data p.1 p.2 (hv p (by simp))]
      rw [ih (fun q hq => hv q (by simp [hq]))]
      show ('\n' :: (mkParamPiece p.1.data (dumpVal p.2) ++
        (paramConcat (r.map (fun p => (['\n'], p.1.data, dumpVal p.2))) ['\n']
          ++ Z))) = _
      rw [show paramConcat ((['\n'], p.1.data, dumpVal p.2) ::
            r.map (fun p => (['\n'], p.1.data, dumpVal p.2))) ['\n'] =
          ['\n'] ++ mkParamPiece p.1.data (dumpVal p.2) ++
            paramConcat (r.map (fun p => (['\n'], p.1.data, dumpVal p.2)))
              ['\n'] from rfl]
      simp

theorem to_xml_format_single (nm : String) (kvs : List (String × JVal))
    (cid : JVal) (fmt : SourceFormat) (raw : JVal)
    (hv : ∀ p ∈ kvs, jsonParamVal p.2 = true) :
    to_xml_format [⟨.str nm, .obj kvs, cid, fmt, raw⟩] =
      some (String.mk (invokeConcat
        [⟨[], ['\n'], nm.data,
          kvs.map (fun p => (['\n'], p.1.data, dumpVal p.2)), ['\n'], ['\n']⟩]
        [])) := by
  show (some (String.intercalate "\n" ("<function_calls>" ::
      ([("<invoke name=\"" ++ nm ++ "\">") ::
        kvs.map (fun p => xmlParamLine p.1 p.2) ++ ["</invoke>"]].flatten ++
      ["</function_calls>"]))) : Option String) = _
  have hdata : (String.intercalate "\n" ("<function_calls>" ::
      ([("<invoke name=\"" ++ nm ++ "\">") ::
        kvs.map (fun p => xmlParamLine p.1 p.2) ++ ["</invoke>"]].flatten ++
      ["</function_calls>"]))).data =
      invokeConcat
        [⟨[], ['\n'], nm.data,
          kvs.map (fun p => (['\n'], p.1.data, dumpVal p.2)), ['\n'], ['\n']⟩]
        [] := by
    rw [intercalate_cons_data]
    simp only [List.flatten_cons, List.flatten_nil, List.append_nil,
      List.map_cons, List.map_append, List.map_nil, List.cons_append,
      List.nil_append, List.append_assoc]
    rw [show invokeConcat
        [⟨[], ['\n'], nm.data,
          kvs.map (fun p => (['\n'], p.1.data, dumpVal p.2)), ['\n'], ['\n']⟩]
        [] =
      "<function_calls>".data ++ ('\n' :: ("<invoke name=\"".data ++
        (nm.data ++ ('"' :: '>' ::
          (paramConcat (kvs.map (fun p => (['\n'], p.1.data, dumpVal p.2)))
            ['\n'] ++ ("</invoke>".data ++ ('\n' ::
              "</function_calls>".data))))))) from by
      show ([] : List Char) ++ mkInvokeBlock ['\n'] nm.data
          (paramConcat (kvs.map (fun p => (['\n'], p.1.data, dumpVal p.2)))
            ['\n']) ['\n'] ++ [] = _
      simp [mkInvokeBlock]]
    rw [← paramLines_chars kvs hv ("</invoke>".data ++ ('\n' ::
      "</function_calls>".data))]
    simp [String.data_append]
  exact congrArg (fun l => some (String.mk l)) hdata

/-! ## Claim theorems -/

/-- C1.  The spec's invariant — `tool_name` is never empty, an unparsable
call is dropped — is violated by the code: a native record of shape
`{"type": "function", "function": {}}` "cannot be parsed" (its function
mapping has no name), yet normalize returns it as a `NormalizedToolCall`
whose `tool_name` is Python `None` (contradicting the dataclass's own
`tool_name: str` annotation), and `[{"name": ""}]` yields a call whose
`tool_name` is the blank string. -/
theorem C1_normalize_leaks_null_and_blank_tool_name :
    normalize_tool_calls
        (.arr [.obj [("type", .str "function"), ("function", .obj [])]]) =
      [⟨.null, .obj [], .null, .native,
        .obj [("type", .str "function"), ("function", .obj [])]⟩] ∧
    normalize_tool_calls (.arr [.obj [("name", .str "")]]) =
      [⟨.str "", .obj [], .null, .native, .obj [("name", .str "")]⟩] :=
  ⟨rfl, rfl⟩

/-- C5.  adapt_for_model follows the spec's resolution order for every
configuration, call list, capability flag and preference: an explicit
`xml` preference always yields the XML rendering; an explicit `native`
preference is honored exactly when the model supports native calling or
strict mode is off; with no effective preference, auto-detection picks
native exactly when the model supports it and the configuration prefers
native; in every remaining case the result is the XML rendering. -/
theorem C5_adapt_for_model_resolution_order (cfg : AdapterConfig)
    (calls : List NormalizedToolCall) (supports : Bool) (pref : Option NativeOrXml) :
    adapt_for_model cfg calls supports pref =
      (if pref = some .xml then (to_xml_format calls).map .xml
       else if pref = some .native ∧ (supports ∨ ¬cfg.strict_mode) then
         some (.native (to_native_format calls))
       else if cfg.auto_detect ∧ supports ∧ cfg.prefer_native then
         some (.native (to_native_format calls))
       else (to_xml_format calls).map .xml) := by
  rcases pref with _ | f
  · simp only [adapt_for_model]
    split_ifs <;> simp_all
  · cases f <;> simp only [adapt_for_model] <;> split_ifs <;> simp_all

/-- C6.  After registering a descriptor with id `"p/a"` and alias `"A"`
into a fresh registry, `get "p/a"` (exact), `get "P/A"` and `get "a"`
(case-insensitive alias table) all return that descriptor, and `get`
returns `none` rather than raising for `None` or empty input. -/
theorem C6_registry_get_exact_and_case_insensitive (d : Model)
    (hid : d.id = "p/a") (hal : d.aliases = ["A"]) :
    registryGet (registryRegister {} d) (some "p/a") = some d ∧
    registryGet (registryRegister {} d) (some "P/A") = some d ∧
    registryGet (registryRegister {} d) (some "a") = some d ∧
    registryGet (registryRegister {} d) none = none ∧
    registryGet (registryRegister {} d) (some "") = none := by
  obtain ⟨i, nm, pr, al, cw, cap, ic, oc, ta, pri, rec, en⟩ := d
  simp only [Model.mk.injEq] at hid hal
  subst hid; subst hal
  exact ⟨rfl, rfl, rfl, rfl, rfl⟩

/-- Witness for C6 at a concrete descriptor. -/
theorem C6_witness :
    registryGet (registryRegister {} exampleModel) (some "p/a") = some exampleModel ∧
    registryGet (registryRegister {} exampleModel) (some "P/A") = some exampleModel ∧
    registryGet (registryRegister {} exampleModel) (some "a") = some exampleModel ∧
    registryGet (registryRegister {} exampleModel) none = none ∧
    registryGet (registryRegister {} exampleModel) (some "") = none :=
  C6_registry_get_exact_and_case_insensitive exampleModel rfl rfl

/-- C7.  get_default_model returns an enabled descriptor of maximal
priority among the enabled catalog: a disabled descriptor is never
selected even if its priority is highest.  (The concrete 10/50/99
scenario is discharged in the witness.) -/
theorem C7_get_default_model_highest_enabled (reg : EmbeddingModelRegistry)
    (m : EmbeddingModel) (h : embGetDefaultModel reg = some m) :
    m.enabled = true ∧ m ∈ embGetAll reg true ∧
      ∀ x ∈ embGetAll reg true, x.priority ≤ m.priority := by
  unfold embGetDefaultModel at h
  by_cases he : (embGetAll reg true).isEmpty
  · simp [he] at h
  · simp only [he, if_false] at h
    obtain ⟨t, ht⟩ : ∃ t, sortByPriorityDesc (embGetAll reg true) = m :: t := by
      cases hs : sortByPriorityDesc (embGetAll reg true) with
      | nil => rw [hs] at h; simp at h
      | cons a t => rw [hs] at h; simp at h; exact ⟨t, by rw [h]⟩
    have hperm : List.Perm (sortByPriorityDesc (embGetAll reg true)) (embGetAll reg true) :=
      List.perm_insertionSort byPriorityDesc _
    have hmem : m ∈ embGetAll reg true :=
      hperm.mem_iff.mp (by rw [ht]; exact List.mem_cons_self _ _)
    have hsort : List.Sorted byPriorityDesc (m :: t) := by
      have := List.sorted_insertionSort byPriorityDesc (embGetAll reg true)
      rwa [show List.insertionSort byPriorityDesc (embGetAll reg true) =
            sortByPriorityDesc (embGetAll reg true) from rfl, ht] at this
    have hen : m.enabled = true := by
      have hm2 : m ∈ (reg.models.map (·.2)).filter (·.enabled) := by
        simpa [embGetAll] using hmem
      exact (List.mem_filter.mp hm2).2
    refine ⟨hen, hmem, ?_⟩
    intro x hx
    have hx2 : x ∈ m :: t := by rw [← ht]; exact hperm.mem_iff.mpr hx
    rcases List.mem_cons.mp hx2 with rfl | hx3
    · exact le_refl _
    · exact (List.sorted_cons.mp hsort).1 x hx3

/-- Witness for C7: over the catalog `{priority 10, enabled}`,
`{priority 50, enabled}`, `{priority 99, disabled}`, the default is the
priority-50 descriptor, and it is enabled. -/
theorem C7_witness :
    embGetDefaultModel exampleEmbReg = some emb50 ∧ emb50.enabled = true :=
  ⟨rfl, (C7_get_default_model_highest_enabled exampleEmbReg emb50 rfl).1⟩

/-- C9.  With zero registered embedding models, get_default_model
returns `None` and get_embedding_model raises the descriptive
configuration `ValueError` — for any requested id — rather than
returning some default. -/
theorem C9_empty_catalog_explicit_failure (reg : EmbeddingModelRegistry)
    (mid : Option String) (h : reg.models = []) :
    embGetDefaultModel reg = none ∧
    get_embedding_model reg mid =
      .error "No embedding models available. Configure at least one embedding provider." := by
  have hall : embGetAll reg true = [] := by simp [embGetAll, h]
  have hdef : embGetDefaultModel reg = none := by simp [embGetDefaultModel, hall]
  have hget : ∀ s : String, embGet reg (some s) = none := by
    intro s
    have h1 : (lookup reg.models s : Option EmbeddingModel) = none := by
      simp [h, lookup]
    by_cases hs : s = ""
    · simp [embGet, hs]
    · simp only [embGet, hs, if_false, h1]
      cases hl : (lookup reg.aliases (pyLower s) : Option String) with
      | none => simp
      | some actual => simp [h, lookup]
  refine ⟨hdef, ?_⟩
  unfold get_embedding_model
  rcases mid with _ | s
  · simp [hdef]
  · by_cases hs : s = "" <;> simp [hs, hget, hdef]

/-- Witness for C9 at the empty registry and a concrete requested id. -/
theorem C9_witness :
    embGetDefaultModel {} = none ∧
    get_embedding_model {} (some "openai/text-embedding-3-small") =
      .error "No embedding models available. Configure at least one embedding provider." :=
  C9_empty_catalog_explicit_failure {} (some "openai/text-embedding-3-small") rfl

/-- C10.  to_native_format synthesizes, for every call without a
`call_id`, an id that is a function of the tool name alone
(`f"call_{hash(tool_name)}"`); hence two distinct calls with the same
tool name and no call id in one batch receive identical — colliding —
ids. -/
theorem C10_synthesized_id_depends_only_on_tool_name
    (c1 c2 : NormalizedToolCall) (h1 : c1.call_id = .null)
    (h2 : c2.call_id = .null) (hn : c1.tool_name = c2.tool_name) :
    (∀ c : NormalizedToolCall, c.call_id = .null →
        recordId (toNativeOne c) = synthCallId c.tool_name) ∧
    recordId (toNativeOne c1) = recordId (toNativeOne c2) ∧
    to_native_format [c1, c2] = [toNativeOne c1, toNativeOne c2] := by
  have key : ∀ c : NormalizedToolCall, c.call_id = .null →
      recordId (toNativeOne c) = synthCallId c.tool_name := by
    intro c hc
    simp [toNativeOne, recordId, hc, JVal.falsy, pyGet, lookup, List.find?]
  exact ⟨key, by rw [key c1 h1, key c2 h2, hn], rfl⟩

/-- Witness for C10: two distinct calls to `web_search` without call ids
collide on the synthesized id. -/
theorem C10_witness :
    (∀ c : NormalizedToolCall, c.call_id = .null →
        recordId (toNativeOne c) = synthCallId c.tool_name) ∧
    recordId (toNativeOne wCall1) = recordId (toNativeOne wCall2) ∧
    to_native_format [wCall1, wCall2] = [toNativeOne wCall1, toNativeOne wCall2] :=
  C10_synthesized_id_depends_only_on_tool_name wCall1 wCall2 rfl rfl rfl

/-- C8.  normalize (a total function in this embedding, as every Python
exception path is modelled by an explicit dropped-call or empty result):
`None` and `[]` both yield `[]`; a record with neither a `function` nor a
`name` key is dropped; dropping one record leaves the rest of the batch
intact; a record whose serialized (non-empty) arguments fail to parse is
dropped (the code short-circuits the empty string to an empty mapping
without parsing it); unsupported input shapes yield `[]`. -/
theorem C8_normalize_never_raises_and_drops_locally :
    (normalize_tool_calls .null = [] ∧ normalize_tool_calls (.arr []) = []) ∧
    (∀ kvs : List (String × JVal), lookup kvs "function" = none →
        lookup kvs "name" = none → parseSingleNativeCall (.obj kvs) = none) ∧
    (∀ (c : JVal) (xs : List JVal), parseSingleNativeCall c = none →
        normalize_tool_calls (.arr (c :: xs)) = normalize_tool_calls (.arr xs)) ∧
    (∀ (kvs fkvs : List (String × JVal)) (s : String),
        pyEqStr (pyGet kvs "type") "function" = true →
        lookup kvs "function" = some (.obj fkvs) →
        lookup fkvs "arguments" = some (.str s) → s ≠ "" →
        jsonLoads s = none → parseSingleNativeCall (.obj kvs) = none) ∧
    (∀ (n : Int) (b : Bool),
        normalize_tool_calls (.num n) = [] ∧ normalize_tool_calls (.bool b) = []) := by
  refine ⟨⟨rfl, rfl⟩, ?_, ?_, ?_, ?_⟩
  · intro kvs hf hn
    simp [parseSingleNativeCall, hf, hn]
  · intro c xs hc
    by_cases hxs : xs = []
    · subst hxs; simp [normalize_tool_calls, JVal.falsy, hc]
    · simp [normalize_tool_calls, JVal.falsy, hc, hxs]
  · intro kvs fkvs s hty hf ha hs hloads
    have hg : pyGet kvs "function" = .obj fkvs := by simp [pyGet, hf]
    simp [parseSingleNativeCall, hty, hf, hg, ha, hs, hloads]
  · intro n b
    constructor
    · by_cases hn : n = 0 <;> simp [normalize_tool_calls, JVal.falsy, hn]
    · cases b <;> simp [normalize_tool_calls, JVal.falsy]

/-- A concrete well-formed OpenAI-shape record (serialized arguments). -/
def c2rec1 : JVal :=
  .obj [("id", .str "call_9"), ("type", .str "function"),
    ("function", .obj [("name", .str "web_search"),
      ("arguments", .str "\x7b\"query\": \"lean\", \"limit\": 3\x7d")])]

/-- A concrete well-formed flat-shape record (mapping arguments). -/
def c2rec2 : JVal :=
  .obj [("name", .str "get_time"), ("arguments", .obj [("tz", .str "utc")])]

/-- The names and decoded argument mappings of the two records above. -/
def c2specs : List (String × JVal) :=
  [("web_search", .obj [("query", .str "lean"), ("limit", .num 3)]),
   ("get_time", .obj [("tz", .str "utc")])]

/-- C2.  For every well-formed batch of native tool-call records,
normalize followed by to_native_format yields records with the same tool
names, in order, and per-call arguments that decode to a mapping equal to
the original record's decoded mapping (semantic equality: the serialized
bytes go through `json.dumps`/`json.loads`, not byte comparison). -/
theorem C2_native_round_trip (rs : List JVal) (specs : List (String × JVal))
    (h : List.Forall₂ (fun r spec =>
        WFNativeRecord r spec.1 spec.2 ∧ pyWF spec.2 = true) rs specs) :
    List.Forall₂ (fun spec out =>
        recordName out = .str spec.1 ∧ recordArgs out = some spec.2)
      specs (to_native_format (normalize_tool_calls (.arr rs))) := by
  rw [normalize_arr]
  induction h with
  | nil => exact List.Forall₂.nil
  | cons hpair htail ih =>
      obtain ⟨hwfr, hwfp⟩ := hpair
      obtain ⟨cid, hparse⟩ := parseSingleNativeCall_of_wf hwfr
      rw [List.filterMap_cons, hparse]
      refine List.Forall₂.cons ⟨?_, ?_⟩ ih
      · exact recordName_toNativeOne _
      · exact recordArgs_toNativeOne _ hwfp

/-- Witness for C2 at a concrete two-record batch covering both accepted
shapes, string and mapping arguments. -/
theorem C2_witness :
    List.Forall₂ (fun spec out =>
        recordName out = .str spec.1 ∧ recordArgs out = some spec.2)
      c2specs (to_native_format (normalize_tool_calls (.arr [c2rec1, c2rec2]))) :=
  C2_native_round_trip [c2rec1, c2rec2] c2specs
    (List.Forall₂.cons
      ⟨⟨_, rfl, Or.inl ⟨rfl, _, rfl, rfl, Or.inr ⟨by decide, rfl⟩⟩⟩, rfl⟩
      (List.Forall₂.cons
        ⟨⟨_, rfl, Or.inr ⟨by decide, rfl, rfl⟩⟩, rfl⟩
        List.Forall₂.nil))

/-- C4.  What XML normalization actually extracts is one call per
`<function_calls>` container, not one per `<invoke>`: over any transcript
of well-formed single-invoke containers with filler text around them,
each container yields exactly one NormalizedToolCall whose name is that
container's invoke `name` attribute and whose parameters are scanned only
from that container's body. -/
theorem C4_one_call_per_container (l : List InvokeSpec) (gtail : List Char)
    (hl : ∀ e ∈ l, InvokeSpecWF e) (hgt : ∀ c ∈ gtail, ¬ c = '<') :
    normalize_tool_calls (.str (String.mk (invokeConcat l gtail))) =
      l.map (fun e =>
        { tool_name := .str (String.mk e.nm),
          parameters := .obj (e.params.foldl (fun acc p =>
            dictInsert acc (String.mk p.2.1) (xmlParamValue p.2.2)) []),
          call_id := .null, source_format := .xml,
          raw_call := .str (String.mk e.block) }) ∧
    (normalize_tool_calls (.str (String.mk (invokeConcat l gtail)))).length =
      l.length := by
  refine ⟨normalize_invokeConcat l gtail hl hgt, ?_⟩
  rw [normalize_invokeConcat l gtail hl hgt]
  simp

/-- Concrete single-invoke containers for the C4 witness. -/
def c4s1 : InvokeSpec := ⟨[], [], "a".data, [([], "x".data, "1".data)], [], []⟩

def c4s2 : InvokeSpec := ⟨[], [], "b".data, [([], "y".data, "2".data)], [], []⟩

theorem C4_witness :
    normalize_tool_calls (.str (String.mk (invokeConcat [c4s1, c4s2] []))) =
      [c4s1, c4s2].map (fun e =>
        { tool_name := .str (String.mk e.nm),
          parameters := .obj (e.params.foldl (fun acc p =>
            dictInsert acc (String.mk p.2.1) (xmlParamValue p.2.2)) []),
          call_id := .null, source_format := .xml,
          raw_call := .str (String.mk e.block) }) ∧
    (normalize_tool_calls
        (.str (String.mk (invokeConcat [c4s1, c4s2] [])))).length = 2 :=
  C4_one_call_per_container [c4s1, c4s2] [] (by decide) (by decide)

set_option maxRecDepth 100000 in
/-- C4 counterexample to the claim as stated: one `<function_calls>`
container wrapping TWO `<invoke>` blocks normalizes to a single call — the
first invoke's name with both invokes' parameters merged — because the
compiled pattern matches whole containers and its lazy body group runs to
the container's last `</invoke>`. -/
theorem C4_merged_invokes_counterexample :
    (normalize_tool_calls (.str "<function_calls><invoke name=\"a\"><parameter name=\"x\">1</parameter></invoke><invoke name=\"b\"><parameter name=\"y\">2</parameter></invoke></function_calls>")).map
        (fun c => (c.tool_name, c.parameters)) =
      [(.str "a", .obj [("x", .num 1), ("y", .num 2)])] := by rfl

/-- C3.  The XML round trip, amended: for a call whose parameter values
are numbers, arrays or objects (rendered as JSON text by to_xml_format),
normalize of the rendered block reproduces the tool name and the exact
parameter mapping — under the decidable hygiene conditions that make the
rendered block well-formed (nonempty quote-free name and keys, distinct
keys, and no close-tag text inside rendered values).  Booleans are
excluded: they are rendered `str(True) = "True"`, which does not parse
back (see the counterexample). -/
theorem C3_xml_round_trip_except_bool
    (nm : String) (kvs : List (String × JVal)) (cid : JVal)
    (fmt : SourceFormat) (raw : JVal)
    (hnm : nm.data ≠ [])
    (hnmq : ∀ c ∈ nm.data, (!(decide (c = '"') || decide (c = '\''))) = true)
    (hnd : keysNodup kvs = true)
    (hkeys : ∀ p ∈ kvs, p.1.data ≠ [] ∧
      ∀ c ∈ p.1.data, (!(decide (c = '"') || decide (c = '\''))) = true)
    (hvals : ∀ p ∈ kvs, jsonParamVal p.2 = true ∧ pyWF p.2 = true ∧
      hasSub "</parameter>".data (dumpVal p.2) = false)
    (hbody : hasSub "</invoke>".data
      (paramConcat (kvs.map (fun p => (['\n'], p.1.data, dumpVal p.2)))
        ['\n']) = false) :
    (to_xml_format [⟨.str nm, .obj kvs, cid, fmt, raw⟩]).isSome = true ∧
    normalize_tool_calls
        (.str ((to_xml_format [⟨.str nm, .obj kvs, cid, fmt, raw⟩]).getD "")) =
      [{ tool_name := .str nm, parameters := .obj kvs, call_id := .null,
         source_format := .xml,
         raw_call := .str ((to_xml_format
           [⟨.str nm, .obj kvs, cid, fmt, raw⟩]).getD "") }] := by
  rw [to_xml_format_single nm kvs cid fmt raw (fun p hp => (hvals p hp).1)]
  refine ⟨rfl, ?_⟩
  simp only [Option.getD_some]
  have hwfE : ∀ e ∈ [(⟨[], ['\n'], nm.data,
      kvs.map (fun p => (['\n'], p.1.data, dumpVal p.2)), ['\n'], ['\n']⟩ :
        InvokeSpec)], InvokeSpecWF e := by
    intro e he
    rw [List.mem_singleton] at he
    subst he
    refine ⟨by simp, ?_, hnm, hnmq, ?_, ?_, hbody, ?_⟩
    · show ∀ c ∈ (['\n'] : List Char), isPyWs c = true
      decide
    · intro p hp
      obtain ⟨q, hq, rfl⟩ := List.mem_map.mp hp
      refine ⟨?_, (hkeys q hq).1, (hkeys q hq).2, (hvals q hq).2.2⟩
      show ∀ c ∈ (['\n'] : List Char), ¬ c = '<'
      decide
    · show ∀ c ∈ (['\n'] : List Char), ¬ c = '<'
      decide
    · show ∀ c ∈ (['\n'] : List Char), isPyWs c = true
      decide
  rw [normalize_invokeConcat _ [] hwfE (by simp)]
  have hparams : (kvs.map (fun p => (['\n'], p.1.data, dumpVal p.2))).foldl
      (fun acc p => dictInsert acc (String.mk p.2.1) (xmlParamValue p.2.2))
      [] = kvs := by
    rw [List.foldl_map]
    rw [List.foldl_ext _ (fun (acc : List (String × JVal))
        (p : String × JVal) => dictInsert acc p.1 p.2) []
      (fun acc p hp => by
        rw [show String.mk p.1.data = p.1 from rfl,
          xmlParamValue_dumpVal p.2 (hvals p hp).2.1])]
    rw [foldl_dictInsert_of_nodup kvs hnd [] (by simp)]
    simp
  have hblk : invokeConcat [(⟨[], ['\n'], nm.data,
      kvs.map (fun p => (['\n'], p.1.data, dumpVal p.2)), ['\n'], ['\n']⟩ :
        InvokeSpec)] [] =
      InvokeSpec.block ⟨[], ['\n'], nm.data,
        kvs.map (fun p => (['\n'], p.1.data, dumpVal p.2)), ['\n'], ['\n']⟩ := by
    show [] ++ _ ++ [] = _
    simp
  simp only [List.map_cons, List.map_nil, hparams, hblk]

theorem dumpVal_num5 : dumpVal (.num 5) = ['5'] := by
  rw [dumpVal]
  rw [show intToChars 5 = natToChars 5 from by simp [intToChars]]
  rw [natToChars]
  norm_num
  decide

theorem dumpVal_num7 : dumpVal (.num 7) = ['7'] := by
  rw [dumpVal]
  rw [show intToChars 7 = natToChars 7 from by simp [intToChars]]
  rw [natToChars]
  norm_num
  decide

theorem dumpVal_obj_k7 : dumpVal (.obj [("k", .num 7)]) = "\x7b\"k\": 7\x7d".data := by
  rw [dumpVal, dumpMembers, dumpVal_num7]
  decide

theorem pyWF_obj_k7 : pyWF (.obj [("k", .num 7)]) = true := by
  rw [pyWF, pyWFMembers, pyWF]
  decide

/-- Concrete parameter mapping (a number and an object) for the C3
witness. -/
def c3kvs : List (String × JVal) := [("n", .num 5), ("o", .obj [("k", .num 7)])]

theorem C3_witness :
    (to_xml_format [⟨.str "t", .obj c3kvs, .null, .native, .null⟩]).isSome =
      true ∧
    normalize_tool_calls
        (.str ((to_xml_format
          [⟨.str "t", .obj c3kvs, .null, .native, .null⟩]).getD "")) =
      [{ tool_name := .str "t", parameters := .obj c3kvs, call_id := .null,
         source_format := .xml,
         raw_call := .str ((to_xml_format
           [⟨.str "t", .obj c3kvs, .null, .native, .null⟩]).getD "") }] :=
  C3_xml_round_trip_except_bool "t" c3kvs .null .native .null (by decide)
    (by decide) (by decide) (by decide)
    (by
      intro p hp
      simp only [c3kvs, List.mem_cons, List.not_mem_nil, or_false] at hp
      rcases hp with rfl | rfl
      · exact ⟨rfl, rfl, by rw [show (("n", JVal.num 5).2 : JVal) =
          JVal.num 5 from rfl, dumpVal_num5]; decide⟩
      · exact ⟨rfl, pyWF_obj_k7, by rw [show (("o", JVal.obj [("k", JVal.num 7)]).2 : JVal) =
          JVal.obj [("k", JVal.num 7)] from rfl, dumpVal_obj_k7]; decide⟩)
    (by
      simp only [c3kvs, List.map_cons, List.map_nil]
      rw [dumpVal_num5, dumpVal_obj_k7]
      decide)

set_option maxRecDepth 100000 in
/-- C3 counterexample for booleans: an XML block carrying the literal
`true` normalizes to a boolean parameter, but the rendered round trip
comes back as the string `"True"` — `str(True)` is not re-parseable JSON —
so booleans do not survive with correct type. -/
theorem C3_bool_param_counterexample :
    (normalize_tool_calls (.str "<function_calls><invoke name=\"t\"><parameter name=\"b\">true</parameter></invoke></function_calls>")).map
        (fun c => (c.tool_name, c.parameters)) =
      [(.str "t", .obj [("b", .bool true)])] ∧
    (normalize_tool_calls (.str ((to_xml_format (normalize_tool_calls
        (.str "<function_calls><invoke name=\"t\"><parameter name=\"b\">true</parameter></invoke></function_calls>"))).getD ""))).map
        (fun c => (c.tool_name, c.parameters)) =
      [(.str "t", .obj [("b", .str "True")])] := by
  exact ⟨rfl, rfl⟩
